import Mathlib

/-!
# Verification of the DBS3 UAMP/MVISP client library core

This file gives a shallow embedding, in Lean 4, of the core of the UAMP/MVISP
client library (`src/library/src/queues.c`, `src/library/src/uampClient.c`,
`src/library/src/states.c`, `src/library/src/errors.h`) and settles a list of
claims about it.

Modelling conventions:
 * C `uint32_t` values are modelled as `Nat` (with `% 2^32` applied exactly
   where C arithmetic can wrap); C `int` counters and indices are modelled as
   `Int`; C `double` values that the library treats numerically are modelled
   as `ℚ` (exact arithmetic; the code performs no operation whose result the
   claims compare across rounding boundaries).
 * Network I/O is modelled by explicit data: incoming server replies are an
   oracle list consumed in order, and outgoing bytes are a trace of typed
   wire items.  Socket reads and writes are modelled as succeeding; the one
   place where the code inspects (and discards) a write failure, the
   handshake reject byte, is modelled with an explicit failure flag.
 * The circular per-agent queue `struct uampAgent` keeps its list of 6
   updates as a `List` of length 6; the `NULL` agents pointer of an
   unconnected client is modelled by the empty list.
-/

namespace DBS3

/-- `struct uampUpdate` (uampClient.h): a decoded mobility update.  All four
coordinates/time fields are `uint32_t` on the wire and `present` is a
`uint8_t`; the `memcmp`-based byte equality of two stored updates coincides
with structural equality of this record. -/
structure UampUpdate where
  time : Nat
  x : Nat
  y : Nat
  z : Nat
  present : Nat
deriving DecidableEq, Repr

instance : Inhabited UampUpdate := ⟨⟨0, 0, 0, 0, 0⟩⟩

/-- `UAMP_UPDATE_QUEUE_SIZE` (uampClient.h). -/
def QUEUE_SIZE : Nat := 6

/-- `UAMP_STATE_BUFFER_SIZE` (uampClient.h). -/
def STATE_BUFFER_SIZE : Nat := 128

/-- `UAMP_MAX_TIME` (uampClient.h), the largest time limit in seconds,
modelled exactly as a rational. -/
def UAMP_MAX_TIME : ℚ := 4294967295 / 1000

/-- `struct uampAgent` (uampClient.h): the circular queue of updates for one
agent.  `updates` always has length `QUEUE_SIZE = 6`; `currentIndex`,
`aliveInQueue` and `recvIndex` are C `int` fields. -/
structure UampAgent where
  updates : List UampUpdate
  currentIndex : Int
  aliveInQueue : Int
  recvIndex : Int
  receivedFinal : Bool
deriving DecidableEq, Repr

/-- The all-zero agent produced by `calloc` in the connect functions. -/
def initAgent : UampAgent :=
  { updates := List.replicate QUEUE_SIZE default
    currentIndex := 0
    aliveInQueue := 0
    recvIndex := 0
    receivedFinal := false }

instance : Inhabited UampAgent := ⟨initAgent⟩

/-- `struct uampState` (uampClient.h): one buffered outgoing state change. -/
structure UampState where
  agentID : Nat
  time : Nat
  newState : Nat
deriving DecidableEq, Repr

/-- An item written to the socket, as produced by the typed write operations
of the framed I/O buffer (`socketWrite8` / `socketWrite32`). -/
inductive WireItem where
  | u8 (v : Nat)
  | u32 (v : Nat)
deriving DecidableEq, Repr

/-- The error taxonomy of errors.h, restricted to the codes the claims
mention.  `code` below maps each constructor to its numeric C value. -/
inductive UErr where
  | socketDry
  | outOfMemory
  | uampClientMvispServer
  | mvispClientUampServer
  | serverUnknownHandshake
  | simulationDenied
  | simulationResponseBad
  | noMoreData
  | invalidChangeTime
  | invalidChangeState
  | noIntersection
  | noSharedVersion
  | twoDClientThreeDServer
  | addRemoveUnsupported
  | invalidFeatures
  | serverRejectedHandshake
  | serverClientVersionDisagree
  | mvispNoAgents
  | firstUpdateTime
  | nonEqualFinalUpdates
  | timestampTooLarge
  | timestampNotIncremented
  | invalidPresentFlag
deriving DecidableEq, Repr

/-- The numeric error codes of errors.h. -/
def UErr.code : UErr → Int
  | .socketDry => -5
  | .outOfMemory => -8
  | .uampClientMvispServer => -15
  | .mvispClientUampServer => -16
  | .serverUnknownHandshake => -17
  | .simulationDenied => -18
  | .simulationResponseBad => -19
  | .noMoreData => -20
  | .invalidChangeTime => -21
  | .invalidChangeState => -22
  | .noIntersection => -23
  | .noSharedVersion => -24
  | .twoDClientThreeDServer => -25
  | .addRemoveUnsupported => -26
  | .invalidFeatures => -27
  | .serverRejectedHandshake => -28
  | .serverClientVersionDisagree => -29
  | .mvispNoAgents => -30
  | .firstUpdateTime => -31
  | .nonEqualFinalUpdates => -32
  | .timestampTooLarge => -33
  | .timestampNotIncremented => -34
  | .invalidPresentFlag => -35

/-- `struct uampClient` (uampClient.h).  The socket descriptor `fd` is kept
(`-1` when disconnected); the `agents` pointer is the list of agents, with
`[]` standing for `NULL`; the fixed `changes` array together with
`numChanges` is the list of currently buffered state changes. -/
structure UampClient where
  fd : Int
  serverFeatures3D : Bool
  serverFeaturesAddRemove : Bool
  numAgents : Nat
  timeLimit : Nat
  numStates : Nat
  agents : List UampAgent
  largestLastTime : Nat
  smallestCurrentTime : Nat
  changes : List UampState
deriving DecidableEq, Repr

/-- Read a queue slot, `agent->updates[i]`.  The C indices the invariants
keep inside `[0, 6)`; out-of-range access (undefined behaviour in C) is
totalised with a default. -/
def uGet (l : List UampUpdate) (i : Int) : UampUpdate :=
  l.getD i.toNat default

/-- `getCurrentUpdate` (queues.c): the slot at `currentIndex`. -/
def agentCurrentUpdate (a : UampAgent) : UampUpdate :=
  uGet a.updates a.currentIndex

/-- `getPreviousUpdate` (queues.c): the current slot when the current
update's time is 0, otherwise the slot immediately preceding `currentIndex`
in ring order. -/
def agentPreviousUpdate (a : UampAgent) : UampUpdate :=
  if (uGet a.updates a.currentIndex).time = 0 then
    uGet a.updates a.currentIndex
  else if a.currentIndex = 0 then
    uGet a.updates ((QUEUE_SIZE : Int) - 1)
  else
    uGet a.updates (a.currentIndex - 1)

/-- `getCurrentUpdate(client, agentID)` at the client level. -/
def getCurrentUpdate (c : UampClient) (agentID : Nat) : UampUpdate :=
  agentCurrentUpdate (c.agents.getD agentID default)

/-- `getPreviousUpdate(client, agentID)` at the client level. -/
def getPreviousUpdate (c : UampClient) (agentID : Nat) : UampUpdate :=
  agentPreviousUpdate (c.agents.getD agentID default)

/-- The "previous reply in ring order" used by `receiveReply` (queues.c,
lines 229-232): the slot before `recvIndex`, wrapping. -/
def prevStore (a : UampAgent) : UampUpdate :=
  if a.recvIndex = 0 then uGet a.updates ((QUEUE_SIZE : Int) - 1)
  else uGet a.updates (a.recvIndex - 1)

/-- The agent state after `receiveReply` has stored the incoming reply into
the slot at `recvIndex` (queues.c, lines 199-215), before verification. -/
def storedAgent (a : UampAgent) (r : UampUpdate) : UampAgent :=
  { a with updates := a.updates.set a.recvIndex.toNat r }

@[simp] lemma storedAgent_updates (a : UampAgent) (r : UampUpdate) :
    (storedAgent a r).updates = a.updates.set a.recvIndex.toNat r := rfl

@[simp] lemma storedAgent_currentIndex (a : UampAgent) (r : UampUpdate) :
    (storedAgent a r).currentIndex = a.currentIndex := rfl

@[simp] lemma storedAgent_aliveInQueue (a : UampAgent) (r : UampUpdate) :
    (storedAgent a r).aliveInQueue = a.aliveInQueue := rfl

@[simp] lemma storedAgent_recvIndex (a : UampAgent) (r : UampUpdate) :
    (storedAgent a r).recvIndex = a.recvIndex := rfl

@[simp] lemma storedAgent_receivedFinal (a : UampAgent) (r : UampUpdate) :
    (storedAgent a r).receivedFinal = a.receivedFinal := rfl

/-- The slot-advance of `recvIndex` at the end of `receiveReply`. -/
def bumpRecv (a : UampAgent) : UampAgent :=
  { a with
    aliveInQueue := a.aliveInQueue + 1
    recvIndex := if a.recvIndex = (QUEUE_SIZE : Int) - 1 then 0 else a.recvIndex + 1 }

/-- `receiveReply` (queues.c): verify one decoded location reply for one
agent and commit it.  The reply `r` is the update as decoded from the wire,
with `z` already forced to 0 and `present` already forced to 1 when the
corresponding feature was not negotiated (lines 206-215).  The reply is
stored into the slot at `recvIndex` before verification, exactly as in the
source; the verification cascade (lines 225-247) then either returns an
error or commits by incrementing `aliveInQueue` and advancing `recvIndex`.
On error the C function leaves the already-stored reply in the array and
poisons the session; since no claim inspects the queue after an error, the
error result here carries only the error code. -/
def receiveReply (timeLimit : Nat) (agent : UampAgent) (r : UampUpdate) :
    Except UErr UampAgent :=
  let a0 : UampAgent := storedAgent agent r
  let checked : Except UErr UampAgent :=
    if a0.aliveInQueue = 0 then
      if r.time ≠ 0 then .error .firstUpdateTime else .ok a0
    else
      let prev := prevStore a0
      if a0.receivedFinal then
        if r ≠ prev then .error .nonEqualFinalUpdates else .ok a0
      else
        if r.time ≤ prev.time then .error .timestampNotIncremented
        else if timeLimit < r.time then .error .timestampTooLarge
        else if r.time = timeLimit then .ok { a0 with receivedFinal := true }
        else .ok a0
  match checked with
  | .error e => .error e
  | .ok a1 =>
      if r.present ≠ 0 ∧ r.present ≠ 1 then .error .invalidPresentFlag
      else .ok (bumpRecv a1)

/-- `numToRequest` (queues.c): the number of updates to request for an
agent, `0` once the final update has been received, else the free space
`UAMP_UPDATE_QUEUE_SIZE - aliveInQueue` (a C `int` expression). -/
def numToRequest (a : UampAgent) : Int :=
  if a.receivedFinal then 0 else (QUEUE_SIZE : Int) - a.aliveInQueue

/-- Conversion of a C `int` to `uint32_t` (reduction mod `2^32`). -/
def u32ofInt (i : Int) : Nat := (i % (4294967296 : Int)).toNat

/-- The queue-cursor part of `advanceAgent` (queues.c, lines 62-68): retire
the previous update when the current one has non-zero time, then advance
`currentIndex` with wraparound.  The conditional refill (lines 69-70) is in
`advanceAgent` below. -/
def advanceQueue (a : UampAgent) : UampAgent :=
  let a1 :=
    if (uGet a.updates a.currentIndex).time ≠ 0 then
      { a with aliveInQueue := a.aliveInQueue - 1 }
    else a
  { a1 with
    currentIndex :=
      if a1.currentIndex = (QUEUE_SIZE : Int) - 1 then 0 else a1.currentIndex + 1 }

/-- Receive `n` consecutive replies for one agent, consuming them from the
oracle list of decoded server replies.  Running out of oracle models a read
on a dry socket. -/
def receiveN (timeLimit : Nat) (a : UampAgent) :
    Nat → List UampUpdate → Except UErr (UampAgent × List UampUpdate)
  | 0, oracle => .ok (a, oracle)
  | _ + 1, [] => .error .socketDry
  | n + 1, r :: oracle =>
      match receiveReply timeLimit a r with
      | .error e => .error e
      | .ok a' => receiveN timeLimit a' n oracle

/-- The reply-consumption order of `fillUpdateQueues`/`requestUpdates`
(queues.c): agents in ascending id order, each receiving `numToRequest`
replies.  The split of the requests into round trips (see `fillBatches`)
changes only the wire framing, never the sequence of `receiveReply` calls,
because consecutive batches cover consecutive agent ranges; this function is
therefore the state semantics of one `fillUpdateQueues` call. -/
def fillAgentsList (timeLimit : Nat) :
    List UampAgent → List UampUpdate → Except UErr (List UampAgent × List UampUpdate)
  | [], oracle => .ok ([], oracle)
  | a :: rest, oracle =>
      match receiveN timeLimit a (u32ofInt (numToRequest a)) oracle with
      | .error e => .error e
      | .ok (a', oracle') =>
          match fillAgentsList timeLimit rest oracle' with
          | .error e => .error e
          | .ok (rest', oracle'') => .ok (a' :: rest', oracle'')

/-- `fillUpdateQueues` (queues.c) at the client level. -/
def fillUpdateQueuesM (c : UampClient) (oracle : List UampUpdate) :
    Except UErr (UampClient × List UampUpdate) :=
  match fillAgentsList c.timeLimit c.agents oracle with
  | .error e => .error e
  | .ok (agents', oracle') => .ok ({ c with agents := agents' }, oracle')

/-- `initializeQueues` (queues.c). -/
def initializeQueues (c : UampClient) (oracle : List UampUpdate) :
    Except UErr (UampClient × List UampUpdate) :=
  fillUpdateQueuesM c oracle

/-- `advanceAgent` (queues.c): advance the consumer cursor of one agent and
refill all queues when only one alive element remains. -/
def advanceAgent (c : UampClient) (agentID : Nat) (oracle : List UampUpdate) :
    Except UErr (UampClient × List UampUpdate) :=
  let a' := advanceQueue (c.agents.getD agentID default)
  let c' := { c with agents := c.agents.set agentID a' }
  if a'.aliveInQueue = 1 then fillUpdateQueuesM c' oracle else .ok (c', oracle)

/-- `UINT32_MAX`. -/
def UINT32_MAX : Nat := 4294967295

/-- The recomputation of `smallestCurrentTime` in `uampAdvance`
(uampClient.c, lines 348-354): fold the current times of all agents starting
from `UINT32_MAX`. -/
def minCurrentFold (c : UampClient) : Nat :=
  (List.range c.numAgents).foldl
    (fun limit i =>
      if (getCurrentUpdate c i).time < limit then (getCurrentUpdate c i).time else limit)
    UINT32_MAX

/-- `uampAdvance` (uampClient.c).  The C code keeps a pointer to the current
update across the queue advance and re-reads it afterwards for the cached
cursor updates; this is modelled by re-reading the slot at the saved index
from the post-advance state. -/
def uampAdvance (c : UampClient) (agentID : Nat) (oracle : List UampUpdate) :
    Except UErr (UampClient × List UampUpdate) :=
  let a := c.agents.getD agentID default
  let oldIdx := a.currentIndex
  if (uGet a.updates oldIdx).time = c.timeLimit then .error .noMoreData
  else
    match advanceAgent c agentID oracle with
    | .error e => .error e
    | .ok (c1, oracle1) =>
        let snap := uGet ((c1.agents.getD agentID default).updates) oldIdx
        let c2 :=
          if c1.largestLastTime < snap.time then
            { c1 with largestLastTime := snap.time }
          else c1
        let c3 :=
          if snap.time = c2.smallestCurrentTime then
            { c2 with smallestCurrentTime := minCurrentFold c2 }
          else c2
        .ok (c3, oracle1)

/-- The loop body of `uampAdvanceOldest` (uampClient.c, lines 378-384):
advance, in ascending id order, every agent whose current time equals the
snapshot `oldest` taken before the loop. -/
def advanceOldestLoop (oldest : Nat) :
    List Nat → UampClient → List UampUpdate → Except UErr (UampClient × List UampUpdate)
  | [], c, oracle => .ok (c, oracle)
  | i :: rest, c, oracle =>
      if (getCurrentUpdate c i).time = oldest then
        match uampAdvance c i oracle with
        | .error e => .error e
        | .ok (c', oracle') => advanceOldestLoop oldest rest c' oracle'
      else advanceOldestLoop oldest rest c oracle

/-- `uampAdvanceOldest` (uampClient.c). -/
def uampAdvanceOldest (c : UampClient) (oracle : List UampUpdate) :
    Except UErr (UampClient × List UampUpdate) :=
  if c.smallestCurrentTime = c.timeLimit then .error .noMoreData
  else advanceOldestLoop c.smallestCurrentTime (List.range c.numAgents) c oracle

/-! ## The request-count batching of `fillUpdateQueues` (claim C4) -/

/-- The batching loop of `fillUpdateQueues` (queues.c, lines 104-121): walk
the per-agent request counts in ascending agent order keeping a `uint32_t`
running sum; when adding a count would wrap (detected as the wrapped sum
being below a summand) emit the accumulated batch `(startAgent, total)` as
one `requestUpdates` round trip and restart at the current agent; emit the
leftover batch at the end when non-empty. -/
def fillLoop : List Nat → Nat → Nat → Nat → List (Nat × Nat)
  | [], startAgent, _, total => if total = 0 then [] else [(startAgent, total)]
  | need :: rest, startAgent, onAgent, total =>
      let s := (total + need) % 4294967296
      if s < total ∨ s < need then
        (startAgent, total) :: fillLoop rest onAgent (onAgent + 1) need
      else
        fillLoop rest startAgent (onAgent + 1) s

/-- The round trips `(startAgent, totalRequests)` that one
`fillUpdateQueues` call performs, given the per-agent request counts. -/
def fillBatches (needs : List Nat) : List (Nat × Nat) := fillLoop needs 0 0 0

/-- The per-agent request counts of a client,
`numToRequest(client, 0), …` converted to `uint32_t` as in
`requestsForAgent = numToRequest(...)` (queues.c, line 107). -/
def clientNeeds (c : UampClient) : List Nat :=
  c.agents.map fun a => u32ofInt (numToRequest a)

/-- The agent-id write loop of `requestUpdates` (queues.c, lines 155-165):
starting at `startAgent` (whose needs-suffix is the first argument), write
each agent's id `numToRequest` times until `totalRequests` ids are written.
The C loop condition `onRequest < totalRequests` is the countdown reaching
0; an exhausted agent array stops the model where the C would read out of
bounds (unreachable for the counts `fillUpdateQueues` produces). -/
def requestIds : List Nat → Nat → Nat → List Nat
  | _, _, 0 => []
  | [], _, _ => []
  | need :: rest, onAgent, cnt =>
      List.replicate need onAgent ++ requestIds rest (onAgent + 1) (cnt - need)

/-- The ideal request list: each agent's id, in ascending order, repeated
once per update that agent needs (spec §4.6). -/
def canonicalIds : List Nat → Nat → List Nat
  | [], _ => []
  | need :: rest, base => List.replicate need base ++ canonicalIds rest (base + 1)

/-! ## Commands (claim C3) -/

/-- `struct uampCommand` (uampClient.h) with its `double` fields modelled as
exact rationals. -/
structure UampCommand where
  agentID : Int
  fromX : ℚ
  fromY : ℚ
  fromZ : ℚ
  fromTime : ℚ
  toX : ℚ
  toY : ℚ
  toZ : ℚ
  toTime : ℚ
  present : Int
deriving DecidableEq, Repr

/-- `uampIntersectCommand` (uampClient.c): the command for one agent clipped
to the window `[largestLastTime, smallestCurrentTime]`, or `NoIntersection`
when that window is empty.  The out-parameter is modelled as the returned
value. -/
def uampIntersectCommand (c : UampClient) (agentID : Nat) : Except UErr UampCommand :=
  if c.smallestCurrentTime < c.largestLastTime then .error .noIntersection
  else
    let last := getPreviousUpdate c agentID
    let cur := getCurrentUpdate c agentID
    if cur.time = 0 then
      .ok { agentID := agentID
            fromX := (cur.x : ℚ) / 1000
            fromY := (cur.y : ℚ) / 1000
            fromZ := (cur.z : ℚ) / 1000
            fromTime := 0
            toX := (cur.x : ℚ) / 1000
            toY := (cur.y : ℚ) / 1000
            toZ := (cur.z : ℚ) / 1000
            toTime := 0
            present := (cur.present : Int) }
    else
      let deltaX : ℚ := (cur.x : ℚ) - (last.x : ℚ)
      let deltaY : ℚ := (cur.y : ℚ) - (last.y : ℚ)
      let deltaZ : ℚ := (cur.z : ℚ) - (last.z : ℚ)
      let deltaT : ℚ := (cur.time : ℚ) - (last.time : ℚ)
      let fracF : ℚ := ((c.largestLastTime : ℚ) - (last.time : ℚ)) / deltaT
      let fracT : ℚ := ((c.smallestCurrentTime : ℚ) - (last.time : ℚ)) / deltaT
      .ok { agentID := agentID
            fromTime := (c.largestLastTime : ℚ) / 1000
            fromX := ((last.x : ℚ) + fracF * deltaX) / 1000
            fromY := ((last.y : ℚ) + fracF * deltaY) / 1000
            fromZ := ((last.z : ℚ) + fracF * deltaZ) / 1000
            toTime := (c.smallestCurrentTime : ℚ) / 1000
            toX := ((last.x : ℚ) + fracT * deltaX) / 1000
            toY := ((last.y : ℚ) + fracT * deltaY) / 1000
            toZ := ((last.z : ℚ) + fracT * deltaZ) / 1000
            present := (last.present : Int) }

/-! ## State changes (claims C7, C10) and termination (claim C6) -/

/-- `flushStateChanges` (states.c): the wire trace of one CHANGE_STATE
message (opcode `0x02`, `uint32_t` count, then one `(agent, time, state)`
triple per buffered change) together with the client whose buffer has been
reset. -/
def flushStateChanges (c : UampClient) : List WireItem × UampClient :=
  ([WireItem.u8 2, WireItem.u32 (c.changes.length % 4294967296)] ++
     c.changes.flatMap (fun s => [WireItem.u32 s.agentID, WireItem.u32 s.time, WireItem.u32 s.newState]),
   { c with changes := [] })

/-- `addStateChange` (states.c): append one change to the bounded buffer and
flush when the buffer reaches `UAMP_STATE_BUFFER_SIZE` entries. -/
def addStateChange (c : UampClient) (agentID time newState : Nat) :
    UampClient × List WireItem :=
  let c1 := { c with changes := c.changes ++ [⟨agentID, time, newState⟩] }
  if c1.changes.length = STATE_BUFFER_SIZE then
    let (out, c2) := flushStateChanges c1
    (c2, out)
  else (c1, [])

/-- Result of `uampChangeState`: success with the possibly-flushed wire
output, an error code, or the process abort of a failed `ASSERT`. -/
inductive CsResult where
  | ok (c : UampClient) (out : List WireItem)
  | err (e : UErr)
  | assertFail
deriving DecidableEq, Repr

/-- `uampChangeState` (uampClient.c).  `atTime` is the C `double` argument,
modelled as an exact rational, and `llround` (applied after the range check,
so to non-negative values only) is `round`. -/
def uampChangeState (c : UampClient) (agentID : Int) (atTime : ℚ) (newState : Int) :
    CsResult :=
  if c.numStates = 0 then .ok c []
  else if atTime < 0 ∨ UAMP_MAX_TIME < atTime then .err .invalidChangeTime
  else
    let sendTime : Nat := (round (atTime * 1000)).toNat
    if ¬(0 ≤ agentID ∧ agentID < (c.numAgents : Int)) then .assertFail
    else if c.timeLimit < sendTime then .err .invalidChangeTime
    else if newState < 0 ∨ (c.numStates : Int) ≤ newState then .err .invalidChangeState
    else
      let (c', out) := addStateChange c agentID.toNat sendTime newState.toNat
      .ok c' out

/-- `uampInitialize` (uampClient.c): reset the descriptor, the agents
pointer and the change counter so that `uampTerminate` is safe to call. -/
def uampInitClient (c : UampClient) : UampClient :=
  { c with fd := -1, agents := [], changes := [] }

/-- `uampTerminate` (uampClient.c): when connected, flush pending state
changes and send the termination frame (`u8 0x00`, `u32 0`); in all cases
close the socket (`fd := -1`) and free the agent storage (`agents := []`).
Socket writes are modelled as succeeding, so the returned C status is 0. -/
def uampTerminate (c : UampClient) : UampClient × List WireItem × Int :=
  if 0 ≤ c.fd then
    let p := if c.changes.length ≠ 0 then flushStateChanges c else ([], c)
    ({ p.2 with fd := -1, agents := [] },
     p.1 ++ [WireItem.u8 0, WireItem.u32 0], 0)
  else
    ({ c with fd := -1, agents := [] }, [], 0)

/-! ## Handshake (claim C8) -/

/-- `UAMP_SUPPORTS_3D` (uampClient.h). -/
def UAMP_SUPPORTS_3D : Nat := 2147483648

/-- `UAMP_SUPPORTS_ADD_REMOVE` (uampClient.h). -/
def UAMP_SUPPORTS_ADD_REMOVE : Nat := 1073741824

/-- `SUPPORTED_VERSION` (uampClient.c), the version bit `0x80`. -/
def SUPPORTED_VERSION : Nat := 128

/-- The ASCII bytes of the `"UAMP"` role tag. -/
def UAMP_TAG : List Nat := [85, 65, 77, 80]

/-- The ASCII bytes of the `"MVIS"` role tag. -/
def MVIS_TAG : List Nat := [77, 86, 73, 83]

/-- The server's side of the 9-byte handshake exchange plus its one-byte
version acknowledgement, and whether the final reject write (should one
happen) would fail at the socket level. -/
structure HandshakeWire where
  serverTag : List Nat
  serverVersions : Nat
  serverFeatures : Nat
  serverAck : Nat
  rejectWriteFails : Bool
deriving DecidableEq, Repr

/-- `performHandshake` (uampClient.c).  Returns the handshake outcome (the
negotiated server feature mask on success) and whether the single reject
byte `0x00` was written to the server.  The C epilogue performs
`socketWrite(client->fd, &ver, sizeof(uint8_t))` for the reject byte and
discards its return value (lines 516-519); the unused `_rejectWriteResult`
below is that discarded value, so the outcome never depends on
`rejectWriteFails`. -/
def performHandshake (isUAMP : Bool) (supportedFeatures : Nat) (w : HandshakeWire) :
    Except UErr Nat × Bool :=
  if Nat.land 1073741823 supportedFeatures ≠ 0 then (.error .invalidFeatures, false)
  else
    let tagErr : Option UErr :=
      if isUAMP then
        if w.serverTag = MVIS_TAG then some .uampClientMvispServer
        else if w.serverTag ≠ UAMP_TAG then some .serverUnknownHandshake
        else none
      else
        if w.serverTag = UAMP_TAG then some .mvispClientUampServer
        else if w.serverTag ≠ MVIS_TAG then some .serverUnknownHandshake
        else none
    let outcome : Except UErr Nat × Bool :=
      match tagErr with
      | some e => (.error e, true)
      | none =>
          if Nat.land w.serverVersions SUPPORTED_VERSION = 0 then
            (.error .noSharedVersion, true)
          else if Nat.land w.serverFeatures UAMP_SUPPORTS_3D ≠ 0 ∧
                  Nat.land supportedFeatures UAMP_SUPPORTS_3D = 0 then
            (.error .twoDClientThreeDServer, true)
          else if Nat.land w.serverFeatures UAMP_SUPPORTS_ADD_REMOVE ≠ 0 ∧
                  Nat.land supportedFeatures UAMP_SUPPORTS_ADD_REMOVE = 0 then
            (.error .addRemoveUnsupported, true)
          else if w.serverAck = 0 then (.error .serverRejectedHandshake, false)
          else if w.serverAck ≠ SUPPORTED_VERSION then
            (.error .serverClientVersionDisagree, false)
          else (.ok w.serverFeatures, false)
    let _rejectWriteResult : Int :=
      if outcome.2 then (if w.rejectWriteFails then -7 else 0) else 0
    outcome

/-! ## MVISP specification negotiation (claim C9) -/

/-- `INT_MAX` of the target platform (32-bit `int`). -/
def C_INT_MAX : Nat := 2147483647

/-- The C cast `(int)naInput` for a `uint32_t` operand, modelled as the
two's-complement wrap (implementation-defined in C above `INT_MAX`, but
universal on the supported platforms). -/
def intCast32 (n : Nat) : Int :=
  if n ≤ C_INT_MAX then (n : Int) else (n : Int) - 4294967296

/-- Observable events of the specification-negotiation fragment of
`mvispConnect` (uampClient.c, lines 146-165). -/
inductive MvEvent where
  | writeNumAgents (v : Int)
  | writeTimeLimit (v : ℚ)
  | callAccept (na : Int) (tl : ℚ)
  | sendDeny
deriving DecidableEq, Repr

/-- The specification-negotiation fragment of `mvispConnect` (uampClient.c,
lines 146-165), given the two `uint32_t` values read from the server: check
for zero agents, convert, store through the (possibly `NULL`) out-pointers,
then either deny (count above `INT_MAX`, or the acceptance predicate
rejects) with a `u32 0` on the wire, or proceed.  Returns the event trace
and the error, `none` meaning the negotiation succeeded. -/
def mvispNegotiate (naInput tlInput : Nat) (hasNumAgentsPtr hasTimeLimitPtr : Bool)
    (acceptFunc : Option (Int → ℚ → Int)) : List MvEvent × Option UErr :=
  if naInput = 0 then ([], some .mvispNoAgents)
  else
    let na := intCast32 naInput
    let tl : ℚ := (tlInput : ℚ) / 1000
    let evs := (if hasNumAgentsPtr then [MvEvent.writeNumAgents na] else []) ++
               (if hasTimeLimitPtr then [MvEvent.writeTimeLimit tl] else [])
    if C_INT_MAX < naInput then (evs ++ [MvEvent.sendDeny], some .simulationDenied)
    else
      match acceptFunc with
      | none => (evs, none)
      | some f =>
          if f na tl ≠ 0 then
            (evs ++ [MvEvent.callAccept na tl, MvEvent.sendDeny], some .simulationDenied)
          else (evs ++ [MvEvent.callAccept na tl], none)

/-! ## Claim C1: the verification cascade of `receiveReply` -/

/-- `receiveReply` written as one cascade of conditionals on the stored
state, used to drive the case analysis of C1. -/
lemma receiveReply_unfold (timeLimit : Nat) (a : UampAgent) (r : UampUpdate) :
    receiveReply timeLimit a r =
      (if a.aliveInQueue = 0 then
         if r.time ≠ 0 then .error .firstUpdateTime
         else if r.present ≠ 0 ∧ r.present ≠ 1 then .error .invalidPresentFlag
         else .ok (bumpRecv (storedAgent a r))
       else if a.receivedFinal then
         if r ≠ prevStore (storedAgent a r) then .error .nonEqualFinalUpdates
         else if r.present ≠ 0 ∧ r.present ≠ 1 then .error .invalidPresentFlag
         else .ok (bumpRecv (storedAgent a r))
       else if r.time ≤ (prevStore (storedAgent a r)).time then
         .error .timestampNotIncremented
       else if timeLimit < r.time then .error .timestampTooLarge
       else if r.time = timeLimit then
         if r.present ≠ 0 ∧ r.present ≠ 1 then .error .invalidPresentFlag
         else .ok (bumpRecv { storedAgent a r with receivedFinal := true })
       else if r.present ≠ 0 ∧ r.present ≠ 1 then .error .invalidPresentFlag
       else .ok (bumpRecv (storedAgent a r))) := by
  unfold receiveReply
  by_cases h0 : a.aliveInQueue = 0
  · by_cases ht : r.time = 0 <;> simp [h0, ht]
  · by_cases hf : a.receivedFinal
    · by_cases he : r = prevStore (storedAgent a r)
      · simp [h0, hf, not_not_intro he]
      · simp [h0, hf, he]
    · by_cases hle : r.time ≤ (prevStore (storedAgent a r)).time
      · simp [h0, hf, hle]
      · by_cases hbig : timeLimit < r.time
        · simp [h0, hf, hle, hbig]
        · by_cases heq : r.time = timeLimit
          · have hle2 : ¬timeLimit ≤ (prevStore (storedAgent a r)).time := heq ▸ hle
            simp [h0, hf, hle, hle2, hbig, heq]
          · simp [h0, hf, hle, hbig, heq]

/-- **C1.** For every location reply received for an agent, `receiveReply`
performs the verification steps in this order and returns exactly these
errors: if the agent's queue is empty (first-ever reply) and the reply's
time is not 0, it returns `FirstUpdateTime`; otherwise, if `receivedFinal`
is set and the reply is not byte-equal to the previous update in ring
order, it returns `NonEqualFinalUpdates`; otherwise, if the reply's time
does not strictly exceed the previous reply's time it returns
`TimestampNotIncremented`, if the time exceeds `timeLimit` it returns
`TimestampTooLarge`, and if the time equals `timeLimit` it sets
`receivedFinal`; finally, if the decoded present flag is neither 0 nor 1 it
returns `InvalidPresentFlag`; on success `aliveInQueue` is incremented and
`recvIndex` advances one slot with wraparound (`bumpRecv`).  The eight
conjuncts below partition all inputs, so no other outcome is possible. -/
theorem receiveReply_cascade (timeLimit : Nat) (a : UampAgent) (r : UampUpdate) :
    (a.aliveInQueue = 0 ∧ r.time ≠ 0 →
       receiveReply timeLimit a r = .error .firstUpdateTime) ∧
    (a.aliveInQueue ≠ 0 ∧ a.receivedFinal = true ∧ r ≠ prevStore (storedAgent a r) →
       receiveReply timeLimit a r = .error .nonEqualFinalUpdates) ∧
    (a.aliveInQueue ≠ 0 ∧ a.receivedFinal = false ∧
       r.time ≤ (prevStore (storedAgent a r)).time →
       receiveReply timeLimit a r = .error .timestampNotIncremented) ∧
    (a.aliveInQueue ≠ 0 ∧ a.receivedFinal = false ∧
       (prevStore (storedAgent a r)).time < r.time ∧ timeLimit < r.time →
       receiveReply timeLimit a r = .error .timestampTooLarge) ∧
    ((a.aliveInQueue = 0 ∧ r.time = 0 ∨
      a.aliveInQueue ≠ 0 ∧ a.receivedFinal = true ∧ r = prevStore (storedAgent a r) ∨
      a.aliveInQueue ≠ 0 ∧ a.receivedFinal = false ∧
        (prevStore (storedAgent a r)).time < r.time ∧ r.time ≤ timeLimit) →
       (r.present ≠ 0 ∧ r.present ≠ 1 →
          receiveReply timeLimit a r = .error .invalidPresentFlag)) ∧
    (a.aliveInQueue = 0 ∧ r.time = 0 ∧ (r.present = 0 ∨ r.present = 1) →
       receiveReply timeLimit a r = .ok (bumpRecv (storedAgent a r))) ∧
    (a.aliveInQueue ≠ 0 ∧ a.receivedFinal = true ∧ r = prevStore (storedAgent a r) ∧
       (r.present = 0 ∨ r.present = 1) →
       receiveReply timeLimit a r = .ok (bumpRecv (storedAgent a r))) ∧
    (a.aliveInQueue ≠ 0 ∧ a.receivedFinal = false ∧
       (prevStore (storedAgent a r)).time < r.time ∧ r.time ≤ timeLimit ∧
       (r.present = 0 ∨ r.present = 1) →
       (r.time = timeLimit →
          receiveReply timeLimit a r =
            .ok (bumpRecv { storedAgent a r with receivedFinal := true })) ∧
       (r.time ≠ timeLimit →
          receiveReply timeLimit a r = .ok (bumpRecv (storedAgent a r)))) := by
  rw [receiveReply_unfold]
  refine ⟨?_, ?_, ?_, ?_, ?_, ?_, ?_, ?_⟩
  · rintro ⟨h0, ht⟩
    simp [h0, ht]
  · rintro ⟨h0, hfin, hne⟩
    simp [h0, hfin, hne]
  · rintro ⟨h0, hfin, hle⟩
    simp [h0, hfin, hle]
  · rintro ⟨h0, hfin, hlt, hbig⟩
    simp [h0, hfin, Nat.not_le.mpr hlt, hbig]
  · rintro h ⟨hp0, hp1⟩
    rcases h with ⟨h0, ht⟩ | ⟨h0, hfin, heq⟩ | ⟨h0, hfin, hlt, hle⟩
    · simp [h0, ht, hp0, hp1]
    · simp [h0, hfin, not_not_intro heq, hp0, hp1]
    · by_cases hl : r.time = timeLimit <;>
        simp [h0, hfin, Nat.not_le.mpr hlt, Nat.not_lt.mpr hle, hl, hp0, hp1] <;>
        omega
  · rintro ⟨h0, ht, hp⟩
    rcases hp with hp | hp <;> simp [h0, ht, hp]
  · rintro ⟨h0, hfin, heq, hp⟩
    rcases hp with hp | hp <;> simp [h0, hfin, not_not_intro heq, hp]
  · rintro ⟨h0, hfin, hlt, hle, hp⟩
    refine ⟨fun hl => ?_, fun hl => ?_⟩ <;>
      rcases hp with hp | hp <;>
      simp [h0, hfin, Nat.not_le.mpr hlt, Nat.not_lt.mpr hle, hl, hp] <;>
      omega

/-- A concrete agent one good reply deep, for witnesses. -/
def exAgent1 : UampAgent :=
  { updates := [⟨0, 5, 6, 0, 1⟩, default, default, default, default, default]
    currentIndex := 0
    aliveInQueue := 1
    recvIndex := 1
    receivedFinal := false }

/-- Witness for C1 at concrete inputs: a first reply with non-zero time is
rejected with `FirstUpdateTime`, and a good in-order second reply is
committed with `aliveInQueue` incremented and `recvIndex` advanced. -/
theorem receiveReply_cascade_witness :
    receiveReply 1000 initAgent ⟨3, 5, 6, 0, 1⟩ = .error .firstUpdateTime ∧
    receiveReply 1000 exAgent1 ⟨40, 7, 8, 0, 1⟩ =
      .ok (bumpRecv (storedAgent exAgent1 ⟨40, 7, 8, 0, 1⟩)) := by
  constructor
  · exact (receiveReply_cascade 1000 initAgent ⟨3, 5, 6, 0, 1⟩).1 (by decide)
  · exact ((receiveReply_cascade 1000 exAgent1 ⟨40, 7, 8, 0, 1⟩).2.2.2.2.2.2.2
      (by decide)).2 (by decide)

/-! ## Claims C7 and C10: `uampChangeState` -/

/-- **C10.** On a UAMP session (`numStates = 0`), `uampChangeState` returns
0 immediately for every combination of arguments, performing no validation
whatsoever: out-of-range times, negative or out-of-range states, and agent
ids that would trip the agent-id assertion on an MVISP session all return
success (and the client is unchanged, with nothing written). -/
theorem changeState_uamp_noop (c : UampClient) (agentID : Int) (atTime : ℚ)
    (newState : Int) (h : c.numStates = 0) :
    uampChangeState c agentID atTime newState = .ok c [] := by
  unfold uampChangeState
  simp [h]

/-- A concrete connected UAMP client (no states). -/
def exClientU : UampClient :=
  { fd := 3, serverFeatures3D := false, serverFeaturesAddRemove := false
    numAgents := 2, timeLimit := 1000, numStates := 0, agents := []
    largestLastTime := 0, smallestCurrentTime := 0, changes := [] }

/-- Witness for C10: an out-of-range agent id, a negative time and an
out-of-range state still succeed on a UAMP session. -/
theorem changeState_uamp_noop_witness :
    exClientU.numStates = 0 ∧
    uampChangeState exClientU (-7) (-3) 99 = .ok exClientU [] :=
  ⟨rfl, changeState_uamp_noop exClientU (-7) (-3) 99 rfl⟩

/-- **C7.** `uampChangeState(agent, atTime, newState)` on an MVISP session
(`numStates ≠ 0`, agent id valid), in the order of the code: it returns
`InvalidChangeTime` when `atTime < 0` or `atTime > UAMP_MAX_TIME`
(4294967.295 s); otherwise it converts via `round(atTime * 1000)` to `u32`
milliseconds and returns `InvalidChangeTime` when the converted time
exceeds `timeLimit`; it returns `InvalidChangeState` when
`newState < 0` or `newState ≥ numStates`; and otherwise appends the triple
to the `STATE_BUFFER_SIZE = 128`-entry batcher, flushing exactly when the
buffer becomes full.  (The UAMP no-op case is `changeState_uamp_noop`.) -/
theorem changeState_mvisp_cascade (c : UampClient) (agentID : Int) (atTime : ℚ)
    (newState : Int) (hS : c.numStates ≠ 0)
    (hA : 0 ≤ agentID ∧ agentID < (c.numAgents : Int)) :
    (atTime < 0 ∨ UAMP_MAX_TIME < atTime →
       uampChangeState c agentID atTime newState = .err .invalidChangeTime) ∧
    (0 ≤ atTime → atTime ≤ UAMP_MAX_TIME →
       (c.timeLimit < (round (atTime * 1000)).toNat →
          uampChangeState c agentID atTime newState = .err .invalidChangeTime) ∧
       ((round (atTime * 1000)).toNat ≤ c.timeLimit →
          (newState < 0 ∨ (c.numStates : Int) ≤ newState →
             uampChangeState c agentID atTime newState = .err .invalidChangeState) ∧
          (0 ≤ newState → newState < (c.numStates : Int) →
             (c.changes.length + 1 ≠ STATE_BUFFER_SIZE →
                uampChangeState c agentID atTime newState =
                  .ok { c with changes := c.changes ++
                        [⟨agentID.toNat, (round (atTime * 1000)).toNat, newState.toNat⟩] } []) ∧
             (c.changes.length + 1 = STATE_BUFFER_SIZE →
                uampChangeState c agentID atTime newState =
                  .ok { c with changes := [] }
                    (flushStateChanges { c with changes := c.changes ++
                      [⟨agentID.toNat, (round (atTime * 1000)).toNat, newState.toNat⟩] }).1)))) := by
  refine ⟨fun hbad => ?_, fun ht0 ht1 => ⟨fun hbig => ?_, fun hle => ⟨fun hbad => ?_,
    fun hs0 hs1 => ⟨fun hnf => ?_, fun hfull => ?_⟩⟩⟩⟩ <;>
    unfold uampChangeState addStateChange
  · rcases hbad with hbad | hbad <;> simp [hS, hbad]
  · simp [hS, not_lt.mpr ht0, not_lt.mpr ht1, hA, hbig]
  · rcases hbad with hbad | hbad <;>
      simp [hS, not_lt.mpr ht0, not_lt.mpr ht1, hA, not_lt.mpr hle, hbad]
  · simp [hS, not_lt.mpr ht0, not_lt.mpr ht1, hA, not_lt.mpr hle,
      not_lt.mpr hs0, not_le.mpr hs1, hnf]
  · simp [hS, not_lt.mpr ht0, not_lt.mpr ht1, hA, not_lt.mpr hle,
      not_lt.mpr hs0, not_le.mpr hs1, hfull, flushStateChanges]

/-- A concrete connected MVISP client with two states. -/
def exClientM : UampClient :=
  { fd := 3, serverFeatures3D := false, serverFeaturesAddRemove := false
    numAgents := 2, timeLimit := 1000, numStates := 2, agents := []
    largestLastTime := 0, smallestCurrentTime := 0, changes := [] }

/-- Witness for C7: on the MVISP client, a state change at 0.5 s to state 1
is enqueued as `(1, 500, 1)` without flushing, and a negative time is
rejected with `InvalidChangeTime`. -/
theorem changeState_mvisp_cascade_witness :
    uampChangeState exClientM 1 (1 / 2) 1 =
      .ok { exClientM with changes := [⟨1, 500, 1⟩] } [] ∧
    uampChangeState exClientM 1 (-1) 1 = .err .invalidChangeTime := by
  constructor
  · have hr : (round ((1 / 2 : ℚ) * 1000)).toNat = 500 := by
      norm_num
      decide
    have h := ((((changeState_mvisp_cascade exClientM 1 (1 / 2) 1 (by decide)
      ⟨by decide, by decide⟩).2 (by norm_num)
      (by rw [UAMP_MAX_TIME]; norm_num)).2 (by rw [hr]; decide)).2
      (by decide) (by decide)).1 (by decide)
    rw [hr] at h
    simpa using h
  · exact (changeState_mvisp_cascade exClientM 1 (-1) 1 (by decide)
      ⟨by decide, by decide⟩).1 (Or.inl (by norm_num))

/-! ## Claim C6: `uampTerminate` -/

/-- **C6.** `uampTerminate` on a connected client first flushes buffered
state changes if any are pending, then sends the termination frame
(`u8 0x00` followed by `u32 0`), closes the socket and frees the owned
agent storage; it is idempotent (the second call performs no socket I/O and
returns 0), and it is equally safe — a successful no-op — after
`uampInitialize` alone or after a failed connect (both of which leave
`fd = -1`). -/
theorem terminate_spec (c : UampClient) :
    (0 ≤ c.fd →
       uampTerminate c =
         ({ (if c.changes.length ≠ 0 then (flushStateChanges c).2 else c) with
              fd := -1, agents := [] },
          (if c.changes.length ≠ 0 then (flushStateChanges c).1 else []) ++
            [WireItem.u8 0, WireItem.u32 0], 0)) ∧
    uampTerminate (uampTerminate c).1 = ((uampTerminate c).1, [], 0) ∧
    uampTerminate (uampInitClient c) = (uampInitClient c, [], 0) ∧
    (c.fd < 0 →
       uampTerminate c = ({ c with fd := -1, agents := [] }, [], 0)) := by
  refine ⟨fun hfd => ?_, ?_, ?_, fun hfd => ?_⟩
  · by_cases hch : c.changes.length ≠ 0 <;> simp [uampTerminate, hfd, hch]
  · by_cases hfd : 0 ≤ c.fd <;>
      by_cases hch : c.changes.length ≠ 0 <;>
      simp [uampTerminate, uampInitClient, flushStateChanges, hfd, hch]
  · simp [uampTerminate, uampInitClient]
  · simp [uampTerminate, not_le.mpr hfd]

/-- Witness for C6: terminating the concrete connected client sends exactly
the termination frame and resets it; terminating again is a pure no-op. -/
theorem terminate_spec_witness :
    uampTerminate exClientM =
      ({ exClientM with fd := -1, agents := [] },
       [WireItem.u8 0, WireItem.u32 0], 0) ∧
    uampTerminate (uampTerminate exClientM).1 = ((uampTerminate exClientM).1, [], 0) := by
  constructor
  · have h := (terminate_spec exClientM).1 (by decide)
    simpa using h
  · exact (terminate_spec exClientM).2.1

/-! ## Claim C9: the MVISP negotiation out-parameters -/

/-- **C9.** `mvispConnect` writes the server-offered number of agents (cast
to `int`) and time limit (in seconds) through its non-`NULL` `numAgents`
and `timeLimit` out-pointers before invoking the acceptance predicate —
they are the first two events of the negotiation trace — so these
out-parameters are populated even when the call subsequently fails with
`SimulationDenied`; and the acceptance predicate is not invoked at all when
the offered agent count exceeds `INT_MAX` (the call then denies). -/
theorem mvispNegotiate_out_params (naInput tlInput : Nat)
    (acceptFunc : Option (Int → ℚ → Int)) (h0 : naInput ≠ 0) :
    (∃ rest, (mvispNegotiate naInput tlInput true true acceptFunc).1 =
       MvEvent.writeNumAgents (intCast32 naInput) ::
         MvEvent.writeTimeLimit ((tlInput : ℚ) / 1000) :: rest) ∧
    (C_INT_MAX < naInput →
       (mvispNegotiate naInput tlInput true true acceptFunc).2 =
         some .simulationDenied ∧
       ∀ na tl, MvEvent.callAccept na tl ∉
         (mvispNegotiate naInput tlInput true true acceptFunc).1) := by
  unfold mvispNegotiate
  by_cases hbig : C_INT_MAX < naInput
  · exact ⟨⟨[MvEvent.sendDeny], by simp [h0, hbig]⟩,
      fun _ => ⟨by simp [h0, hbig], by simp [h0, hbig]⟩⟩
  · refine ⟨?_, fun hc => absurd hc hbig⟩
    match acceptFunc with
    | none => exact ⟨[], by simp [h0, hbig]⟩
    | some f =>
        by_cases hf : f (intCast32 naInput) ((tlInput : ℚ) / 1000) ≠ 0
        · exact ⟨[MvEvent.callAccept (intCast32 naInput) ((tlInput : ℚ) / 1000),
            MvEvent.sendDeny], by simp [h0, hbig, hf]⟩
        · exact ⟨[MvEvent.callAccept (intCast32 naInput) ((tlInput : ℚ) / 1000)],
            by simp [h0, hbig, hf]⟩

/-- Witness for C9: a server offer of 4000000000 agents (above `INT_MAX`)
has its wrapped cast written to the out-parameters, is denied, and never
invokes the predicate. -/
theorem mvispNegotiate_out_params_witness :
    (∃ rest, (mvispNegotiate 4000000000 2000 true true (some fun _ _ => 0)).1 =
       MvEvent.writeNumAgents (intCast32 4000000000) ::
         MvEvent.writeTimeLimit ((2000 : ℚ) / 1000) :: rest) ∧
    (mvispNegotiate 4000000000 2000 true true (some fun _ _ => 0)).2 =
      some .simulationDenied ∧
    ∀ na tl, MvEvent.callAccept na tl ∉
      (mvispNegotiate 4000000000 2000 true true (some fun _ _ => 0)).1 := by
  have h := mvispNegotiate_out_params 4000000000 2000 (some fun _ _ => 0) (by decide)
  exact ⟨h.1, h.2 (by decide)⟩

/-! ## Claim C8: the handshake reject byte -/

/-- **C8.** The handshake sends the single reject byte `0x00` to the server
not only on the version/feature failures listed in the spec but also before
returning the role-tag errors `UampClientMvispServer`,
`MvispClientUampServer` and `ServerUnknownHandshake`; and an error from
that reject write itself is discarded — the handshake outcome is the same
whether or not the reject write fails. -/
theorem handshake_reject_role_errors (supportedFeatures : Nat) (w : HandshakeWire)
    (hok : Nat.land 1073741823 supportedFeatures = 0) :
    (w.serverTag = MVIS_TAG →
       performHandshake true supportedFeatures w =
         (.error .uampClientMvispServer, true)) ∧
    (w.serverTag = UAMP_TAG →
       performHandshake false supportedFeatures w =
         (.error .mvispClientUampServer, true)) ∧
    (w.serverTag ≠ UAMP_TAG → w.serverTag ≠ MVIS_TAG →
       performHandshake true supportedFeatures w =
         (.error .serverUnknownHandshake, true) ∧
       performHandshake false supportedFeatures w =
         (.error .serverUnknownHandshake, true)) ∧
    (∀ (isUAMP b : Bool),
       (performHandshake isUAMP supportedFeatures
           { w with rejectWriteFails := b }).1 =
         (performHandshake isUAMP supportedFeatures w).1) := by
  refine ⟨fun htag => ?_, fun htag => ?_, fun ht1 ht2 => ⟨?_, ?_⟩, fun _ _ => rfl⟩
  · simp [performHandshake, hok, htag]
  · simp [performHandshake, hok, htag]
  · simp [performHandshake, hok, ht1, ht2]
  · simp [performHandshake, hok, ht1, ht2]

/-- Witness for C8: with valid client features, a `"MVIS"` reply to a UAMP
client yields `UampClientMvispServer` with the reject byte sent, whether or
not that final write fails. -/
theorem handshake_reject_role_errors_witness :
    performHandshake true 0
        ⟨MVIS_TAG, 128, 0, 128, false⟩ = (.error .uampClientMvispServer, true) ∧
    performHandshake true 0
        ⟨MVIS_TAG, 128, 0, 128, true⟩ = (.error .uampClientMvispServer, true) := by
  constructor
  · exact (handshake_reject_role_errors 0 ⟨MVIS_TAG, 128, 0, 128, false⟩
      (by decide)).1 rfl
  · exact (handshake_reject_role_errors 0 ⟨MVIS_TAG, 128, 0, 128, true⟩
      (by decide)).1 rfl

/-! ## Claim C4: the request batching of `fillUpdateQueues` -/

/-- The agent ids written on the wire by a full `fillUpdateQueues` call: the
concatenation, over the emitted round trips `(startAgent, totalRequests)`,
of the id loop of `requestUpdates` started at that agent. -/
def batchFlat (needs : List Nat) : List (Nat × Nat) → List Nat
  | [] => []
  | p :: rest => requestIds (needs.drop p.1) p.1 p.2 ++ batchFlat needs rest

lemma canonicalIds_sum_zero (l : List Nat) (base : Nat) (h : l.sum = 0) :
    canonicalIds l base = [] := by
  induction l generalizing base with
  | nil => rfl
  | cons n rest ih =>
      simp only [List.sum_cons] at h
      have hn : n = 0 := by omega
      have hr : rest.sum = 0 := by omega
      simp [canonicalIds, hn, ih _ hr]

lemma requestIds_zero (l : List Nat) (base : Nat) : requestIds l base 0 = [] := by
  cases l <;> rfl

/-- When the request count is exactly the total need of an agent-range
prefix, the id loop of `requestUpdates` emits precisely the grouped,
ascending ids of that prefix and stops at its boundary. -/
lemma requestIds_exact (seg rest : List Nat) (base : Nat) :
    requestIds (seg ++ rest) base seg.sum = canonicalIds seg base := by
  induction seg generalizing base with
  | nil => simp [canonicalIds, requestIds_zero]
  | cons n seg' ih =>
      by_cases h : n + seg'.sum = 0
      · have hn : n = 0 := by omega
        have hs' : seg'.sum = 0 := by omega
        simp [List.sum_cons, hn, hs', requestIds_zero, canonicalIds,
          canonicalIds_sum_zero seg' (base + 1) hs']
      · simp only [List.sum_cons] at h
        obtain ⟨k, hk⟩ := Nat.exists_eq_succ_of_ne_zero h
        simp only [List.cons_append, List.sum_cons, hk, requestIds, canonicalIds]
        have hkn : k.succ - n = seg'.sum := by omega
        rw [hkn, ih]

lemma canonicalIds_append (l1 l2 : List Nat) (base : Nat) :
    canonicalIds (l1 ++ l2) base =
      canonicalIds l1 base ++ canonicalIds l2 (base + l1.length) := by
  induction l1 generalizing base with
  | nil => simp [canonicalIds]
  | cons n rest ih =>
      simp [canonicalIds, ih, Nat.add_assoc, Nat.add_comm 1 rest.length]

/-- The central induction for C4: running the batching loop over the needs
suffix `rest`, with the batch currently being accumulated covering exactly
the needs `seg` (located just before `rest`, after a prefix `pre`), the ids
written across all emitted round trips are exactly the canonical grouped
ascending ids. -/
lemma fillLoop_flat (rest : List Nat) : ∀ (seg pre : List Nat),
    (∀ x ∈ rest, x < 4294967296) → seg.sum < 4294967296 →
    batchFlat (pre ++ seg ++ rest)
        (fillLoop rest pre.length (pre.length + seg.length) seg.sum) =
      canonicalIds (seg ++ rest) pre.length := by
  induction rest with
  | nil =>
      intro seg pre _ _
      by_cases h : seg.sum = 0
      · simp [fillLoop, h, batchFlat, canonicalIds_sum_zero _ _ h]
      · have h1 := requestIds_exact seg [] pre.length
        rw [List.append_nil] at h1
        simp [fillLoop, h, batchFlat, List.drop_left, h1]
  | cons need rest' ih =>
      intro seg pre h32 hs
      have hneed : need < 4294967296 := h32 need (by simp)
      have h32' : ∀ x ∈ rest', x < 4294967296 := fun x hx => h32 x (by simp [hx])
      simp only [fillLoop]
      by_cases hov : (seg.sum + need) % 4294967296 < seg.sum ∨
          (seg.sum + need) % 4294967296 < need
      · -- the u32 sum would wrap: the accumulated batch is emitted here
        simp only [hov, ite_true, batchFlat]
        rw [List.append_assoc, List.drop_left]
        have h1 : requestIds (seg ++ need :: rest') pre.length seg.sum =
            canonicalIds seg pre.length := requestIds_exact seg (need :: rest') pre.length
        rw [h1]
        have h2 := ih [need] (pre ++ seg) h32' (by simpa using hneed)
        simp only [List.length_append, List.sum_cons, List.sum_nil, Nat.add_zero,
          List.singleton_append, List.length_singleton, List.append_assoc] at h2
        rw [h2, canonicalIds_append seg (need :: rest') pre.length]
      · -- no wrap: the need joins the accumulated batch
        simp only [hov, ite_false]
        have hlt : seg.sum + need < 4294967296 := by
          by_contra hge
          push_neg at hge
          exact hov (Or.inr (by omega))
        have hmod : (seg.sum + need) % 4294967296 = seg.sum + need :=
          Nat.mod_eq_of_lt hlt
        rw [hmod]
        have h2 := ih (seg ++ [need]) pre h32' (by simpa using hlt)
        simp only [List.sum_append, List.sum_cons, List.sum_nil, Nat.add_zero,
          List.length_append, List.length_singleton, List.append_assoc,
          List.singleton_append] at h2
        rw [show pre.length + (seg.length + 1) = pre.length + seg.length + 1 by omega] at h2
        simp only [List.append_assoc]
        exact h2

lemma fillLoop_bounds (rest : List Nat) : ∀ (s onA total : Nat),
    (∀ x ∈ rest, x < 4294967296) → total < 4294967296 →
    (∀ p ∈ fillLoop rest s onA total, p.2 < 4294967296 ∧ p.2 ≠ 0) ∧
    ((fillLoop rest s onA total).map Prod.snd).sum = total + rest.sum := by
  induction rest with
  | nil =>
      intro s onA total _ ht
      by_cases h : total = 0 <;> simp [fillLoop, h, ht]
  | cons need rest' ih =>
      intro s onA total h32 ht
      have hneed : need < 4294967296 := h32 need (by simp)
      have h32' : ∀ x ∈ rest', x < 4294967296 := fun x hx => h32 x (by simp [hx])
      simp only [fillLoop]
      by_cases hov : (total + need) % 4294967296 < total ∨
          (total + need) % 4294967296 < need
      · have hge : 4294967296 ≤ total + need := by
          by_contra hlt
          push_neg at hlt
          rw [Nat.mod_eq_of_lt hlt] at hov
          omega
        have htpos : total ≠ 0 := by omega
        obtain ⟨hb, hsum⟩ := ih onA (onA + 1) need h32' hneed
        simp only [hov, ite_true]
        refine ⟨?_, ?_⟩
        · intro p hp
          rcases List.mem_cons.mp hp with rfl | hp
          · exact ⟨ht, htpos⟩
          · exact hb p hp
        · simp only [List.map_cons, List.sum_cons, hsum]
      · have hlt : total + need < 4294967296 := by
          by_contra hge
          push_neg at hge
          exact hov (Or.inr (by omega))
        obtain ⟨hb, hsum⟩ := ih s (onA + 1) (total + need) h32' hlt
        simp only [hov, ite_false]
        rw [Nat.mod_eq_of_lt hlt]
        refine ⟨hb, ?_⟩
        rw [hsum]
        simp only [List.sum_cons]
        omega

/-- **C4.** When `fillUpdateQueues` computes the batch of location
requests: the per-agent need is `QUEUE_SIZE = 6` minus `aliveInQueue`, or 0
when that agent's `receivedFinal` is set (first conjunct); agents are
iterated in ascending id order with an unsigned 32-bit running sum, and
when adding an agent's need would overflow the accumulated batch is emitted
as a complete round trip and accumulation restarts at that agent, so that
the ids written across all emitted round trips are exactly each agent's id,
in ascending order, repeated once per needed update (second conjunct), each
round trip's request count fits in `uint32_t` and is non-zero (third), and
no request is lost to wraparound: the counts sum to the exact total need
(fourth). -/
theorem fillUpdateQueues_batching (c : UampClient)
    (hag : ∀ a ∈ c.agents, 0 ≤ a.aliveInQueue ∧ a.aliveInQueue ≤ 6) :
    clientNeeds c = c.agents.map
      (fun a => if a.receivedFinal then 0 else ((QUEUE_SIZE : Int) - a.aliveInQueue).toNat) ∧
    batchFlat (clientNeeds c) (fillBatches (clientNeeds c)) =
      canonicalIds (clientNeeds c) 0 ∧
    (∀ p ∈ fillBatches (clientNeeds c), p.2 < 4294967296 ∧ p.2 ≠ 0) ∧
    ((fillBatches (clientNeeds c)).map Prod.snd).sum = (clientNeeds c).sum := by
  have hneed32 : ∀ x ∈ clientNeeds c, x < 4294967296 := by
    intro x hx
    simp only [clientNeeds, List.mem_map] at hx
    obtain ⟨a, _, rfl⟩ := hx
    simp only [u32ofInt]
    have := Int.emod_lt_of_pos (numToRequest a) (show (0:Int) < 4294967296 by norm_num)
    omega
  refine ⟨?_, ?_, ?_, ?_⟩
  · simp only [clientNeeds]
    apply List.map_congr_left
    intro a ha
    obtain ⟨h0, h6⟩ := hag a ha
    simp only [u32ofInt, numToRequest, QUEUE_SIZE]
    by_cases hf : a.receivedFinal
    · simp [hf]
    · simp [hf]
      rw [Int.emod_eq_of_lt (by omega) (by omega)]
  · have h := fillLoop_flat (clientNeeds c) [] [] hneed32 (by norm_num)
    simpa [fillBatches, batchFlat] using h
  · exact (fillLoop_bounds (clientNeeds c) 0 0 0 hneed32 (by norm_num)).1
  · have h := (fillLoop_bounds (clientNeeds c) 0 0 0 hneed32 (by norm_num)).2
    simpa [fillBatches] using h

/-- A concrete client whose first agent needs a full queue of 6 updates and
whose second has received its final update (need 0). -/
def exClientB : UampClient :=
  { fd := 3, serverFeatures3D := false, serverFeaturesAddRemove := false
    numAgents := 2, timeLimit := 1000, numStates := 0
    agents := [initAgent, { initAgent with receivedFinal := true, aliveInQueue := 3 }]
    largestLastTime := 0, smallestCurrentTime := 0, changes := [] }

/-- Witness for C4 at a concrete client: needs `[6, 0]`, a single round
trip `(0, 6)`, and the written ids are agent 0 six times. -/
theorem fillUpdateQueues_batching_witness :
    batchFlat (clientNeeds exClientB) (fillBatches (clientNeeds exClientB)) =
      canonicalIds (clientNeeds exClientB) 0 ∧
    ((fillBatches (clientNeeds exClientB)).map Prod.snd).sum =
      (clientNeeds exClientB).sum :=
  ⟨(fillUpdateQueues_batching exClientB (by decide)).2.1,
   (fillUpdateQueues_batching exClientB (by decide)).2.2.2⟩

/-! ## Claim C3: `uampIntersectCommand` -/

/-- Fractional position of time `t` between a previous and a current update
time (the "fractional time" of the interpolation). -/
def interpFrac (t lastTime curTime : ℚ) : ℚ := (t - lastTime) / (curTime - lastTime)

/-- Linear interpolation between `a` and `b` at fraction `f`. -/
def linInterp (f a b : ℚ) : ℚ := (1 - f) * a + f * b

/-- The interpolated-command shape claimed for a non-initial current
update: every coordinate of the command is the linear interpolation of the
previous and current coordinates at the fractional time of the window
endpoint, and the present flag comes from the previous update. -/
def IntersectInterpolated (c : UampClient) (agentID : Nat) (cmd : UampCommand) : Prop :=
  let last := getPreviousUpdate c agentID
  let cur := getCurrentUpdate c agentID
  let fF := interpFrac (c.largestLastTime : ℚ) (last.time : ℚ) (cur.time : ℚ)
  let fT := interpFrac (c.smallestCurrentTime : ℚ) (last.time : ℚ) (cur.time : ℚ)
  cmd.fromX = linInterp fF (last.x : ℚ) (cur.x : ℚ) / 1000 ∧
  cmd.fromY = linInterp fF (last.y : ℚ) (cur.y : ℚ) / 1000 ∧
  cmd.fromZ = linInterp fF (last.z : ℚ) (cur.z : ℚ) / 1000 ∧
  cmd.toX = linInterp fT (last.x : ℚ) (cur.x : ℚ) / 1000 ∧
  cmd.toY = linInterp fT (last.y : ℚ) (cur.y : ℚ) / 1000 ∧
  cmd.toZ = linInterp fT (last.z : ℚ) (cur.z : ℚ) / 1000 ∧
  cmd.present = (last.present : Int)

/-- **C3.** For every agent of a connected session, `uampIntersectCommand`
returns `NoIntersection` exactly when
`largestLastTime > smallestCurrentTime`; whenever it succeeds (the
precondition `largestLastTime ≤ smallestCurrentTime` holds; the
reachable-state facts used are that the agent id is valid and that the
previous update strictly precedes a non-initial current one), the returned
command has `fromTime = largestLastTime/1000` and
`toTime = smallestCurrentTime/1000`, with positions linearly interpolated
between the previous and current updates along fractional time and the
present flag taken from the previous update; when the agent's current
update time is 0, from and to both collapse to the current update's point
and present comes from the current update. -/
theorem intersect_command_spec (c : UampClient) (agentID : Nat)
    (_ha : agentID < c.numAgents)
    (_hreach : (getCurrentUpdate c agentID).time ≠ 0 →
       (getPreviousUpdate c agentID).time < (getCurrentUpdate c agentID).time) :
    (uampIntersectCommand c agentID = .error .noIntersection ↔
       c.smallestCurrentTime < c.largestLastTime) ∧
    (c.largestLastTime ≤ c.smallestCurrentTime →
       ∃ cmd, uampIntersectCommand c agentID = .ok cmd ∧
         ((getCurrentUpdate c agentID).time = 0 →
            cmd.fromTime = 0 ∧ cmd.toTime = 0 ∧
            cmd.fromX = ((getCurrentUpdate c agentID).x : ℚ) / 1000 ∧
            cmd.fromY = ((getCurrentUpdate c agentID).y : ℚ) / 1000 ∧
            cmd.fromZ = ((getCurrentUpdate c agentID).z : ℚ) / 1000 ∧
            cmd.toX = cmd.fromX ∧ cmd.toY = cmd.fromY ∧ cmd.toZ = cmd.fromZ ∧
            cmd.present = ((getCurrentUpdate c agentID).present : Int)) ∧
         ((getCurrentUpdate c agentID).time ≠ 0 →
            cmd.fromTime = (c.largestLastTime : ℚ) / 1000 ∧
            cmd.toTime = (c.smallestCurrentTime : ℚ) / 1000 ∧
            IntersectInterpolated c agentID cmd)) := by
  by_cases hlt : c.smallestCurrentTime < c.largestLastTime
  · refine ⟨?_, fun hle => absurd hlt (not_lt.mpr hle)⟩
    unfold uampIntersectCommand
    simp [hlt]
  · refine ⟨?_, fun _ => ?_⟩
    · unfold uampIntersectCommand
      simp only [hlt, ite_false, iff_false]
      by_cases h0 : (getCurrentUpdate c agentID).time = 0 <;> simp [h0]
    · by_cases h0 : (getCurrentUpdate c agentID).time = 0
      · refine ⟨{ agentID := (agentID : Int)
                  fromX := ((getCurrentUpdate c agentID).x : ℚ) / 1000
                  fromY := ((getCurrentUpdate c agentID).y : ℚ) / 1000
                  fromZ := ((getCurrentUpdate c agentID).z : ℚ) / 1000
                  fromTime := 0
                  toX := ((getCurrentUpdate c agentID).x : ℚ) / 1000
                  toY := ((getCurrentUpdate c agentID).y : ℚ) / 1000
                  toZ := ((getCurrentUpdate c agentID).z : ℚ) / 1000
                  toTime := 0
                  present := ((getCurrentUpdate c agentID).present : Int) },
            ?_, fun _ => ⟨rfl, rfl, rfl, rfl, rfl, rfl, rfl, rfl, rfl⟩,
            fun hne => absurd h0 hne⟩
        simp [uampIntersectCommand, hlt, h0]
      · refine ⟨{ agentID := (agentID : Int)
                  fromX := (((getPreviousUpdate c agentID).x : ℚ) +
                    (((c.largestLastTime : ℚ) - ((getPreviousUpdate c agentID).time : ℚ)) /
                      (((getCurrentUpdate c agentID).time : ℚ) - ((getPreviousUpdate c agentID).time : ℚ))) *
                    (((getCurrentUpdate c agentID).x : ℚ) - ((getPreviousUpdate c agentID).x : ℚ))) / 1000
                  fromY := (((getPreviousUpdate c agentID).y : ℚ) +
                    (((c.largestLastTime : ℚ) - ((getPreviousUpdate c agentID).time : ℚ)) /
                      (((getCurrentUpdate c agentID).time : ℚ) - ((getPreviousUpdate c agentID).time : ℚ))) *
                    (((getCurrentUpdate c agentID).y : ℚ) - ((getPreviousUpdate c agentID).y : ℚ))) / 1000
                  fromZ := (((getPreviousUpdate c agentID).z : ℚ) +
                    (((c.largestLastTime : ℚ) - ((getPreviousUpdate c agentID).time : ℚ)) /
                      (((getCurrentUpdate c agentID).time : ℚ) - ((getPreviousUpdate c agentID).time : ℚ))) *
                    (((getCurrentUpdate c agentID).z : ℚ) - ((getPreviousUpdate c agentID).z : ℚ))) / 1000
                  fromTime := (c.largestLastTime : ℚ) / 1000
                  toX := (((getPreviousUpdate c agentID).x : ℚ) +
                    (((c.smallestCurrentTime : ℚ) - ((getPreviousUpdate c agentID).time : ℚ)) /
                      (((getCurrentUpdate c agentID).time : ℚ) - ((getPreviousUpdate c agentID).time : ℚ))) *
                    (((getCurrentUpdate c agentID).x : ℚ) - ((getPreviousUpdate c agentID).x : ℚ))) / 1000
                  toY := (((getPreviousUpdate c agentID).y : ℚ) +
                    (((c.smallestCurrentTime : ℚ) - ((getPreviousUpdate c agentID).time : ℚ)) /
                      (((getCurrentUpdate c agentID).time : ℚ) - ((getPreviousUpdate c agentID).time : ℚ))) *
                    (((getCurrentUpdate c agentID).y : ℚ) - ((getPreviousUpdate c agentID).y : ℚ))) / 1000
                  toZ := (((getPreviousUpdate c agentID).z : ℚ) +
                    (((c.smallestCurrentTime : ℚ) - ((getPreviousUpdate c agentID).time : ℚ)) /
                      (((getCurrentUpdate c agentID).time : ℚ) - ((getPreviousUpdate c agentID).time : ℚ))) *
                    (((getCurrentUpdate c agentID).z : ℚ) - ((getPreviousUpdate c agentID).z : ℚ))) / 1000
                  toTime := (c.smallestCurrentTime : ℚ) / 1000
                  present := ((getPreviousUpdate c agentID).present : Int) },
            ?_, fun hz => absurd hz h0, fun _ => ⟨rfl, rfl, ?_⟩⟩
        · simp [uampIntersectCommand, hlt, h0]
        · simp only [IntersectInterpolated]
          refine ⟨?_, ?_, ?_, ?_, ?_, ?_, ?_⟩ <;>
            first
              | trivial
              | (simp only [linInterp, interpFrac]; ring)

/-- A concrete reachable-shaped agent for the C3 witness: previous update
at t=0 ms, current at t=100 ms. -/
def exAgentI : UampAgent :=
  { updates := [⟨0, 1000, 2000, 0, 1⟩, ⟨100, 2000, 3000, 0, 1⟩,
                default, default, default, default]
    currentIndex := 1
    aliveInQueue := 6
    recvIndex := 2
    receivedFinal := false }

/-- A concrete client for the C3 witness with window [40 ms, 100 ms]. -/
def exClientI : UampClient :=
  { fd := 3, serverFeatures3D := false, serverFeaturesAddRemove := false
    numAgents := 1, timeLimit := 1000, numStates := 0
    agents := [exAgentI]
    largestLastTime := 40, smallestCurrentTime := 100, changes := [] }

/-- Witness for C3: at the concrete client, the intersect command succeeds
with the clipped window times 0.040 s and 0.100 s. -/
theorem intersect_command_spec_witness :
    ∃ cmd, uampIntersectCommand exClientI 0 = .ok cmd ∧
      cmd.fromTime = (40 : ℚ) / 1000 ∧ cmd.toTime = (100 : ℚ) / 1000 := by
  obtain ⟨cmd, hcmd, _, hne⟩ :=
    (intersect_command_spec exClientI 0 (by decide) (fun _ => by decide)).2 (by decide)
  obtain ⟨h1, h2, _⟩ := hne (by decide)
  refine ⟨cmd, hcmd, ?_, ?_⟩
  · rw [h1]; norm_num [exClientI]
  · rw [h2]; norm_num [exClientI]

/-! ## The alive segment of a queue (infrastructure for claims C2 and C5)

The `aliveInQueue` slots of an agent's ring form one contiguous ring
segment ending just before `recvIndex`.  `segStart` is its first slot and
`aliveSeg` lists its updates in ring order: the still-referenced previous
update (once the agent has advanced), the current update, and the updates
still to be consumed. -/

/-- First ring slot of the alive segment. -/
def segStart (a : UampAgent) : Int := (a.recvIndex - a.aliveInQueue) % 6

/-- Ring slot of the `k`-th alive update. -/
def segSlot (a : UampAgent) (k : Nat) : Int := (segStart a + k) % 6

/-- The alive updates, in ring order from the segment start. -/
def aliveSeg (a : UampAgent) : List UampUpdate :=
  (List.range a.aliveInQueue.toNat).map fun k => uGet a.updates (segSlot a k)

/-- The ordering relation the server must maintain between consecutive
replies: strictly increasing times up to the limit, then identical
duplicates of the final update. -/
def ReplyStep (limit : Nat) (u v : UampUpdate) : Prop :=
  (u.time < v.time ∧ v.time ≤ limit) ∨ (u.time = limit ∧ v = u)

instance (limit : Nat) (u v : UampUpdate) : Decidable (ReplyStep limit u v) := by
  unfold ReplyStep
  infer_instance

/-- The per-agent queue facts maintained by every `receiveReply`
(independently of where the consumer cursor sits): field bounds, the
server-ordering chain along the alive segment, the time bound, and the
exact meaning of `receivedFinal`. -/
structure RInv (limit : Nat) (a : UampAgent) : Prop where
  len : a.updates.length = 6
  cur0 : 0 ≤ a.currentIndex
  cur6 : a.currentIndex < 6
  recv0 : 0 ≤ a.recvIndex
  recv6 : a.recvIndex < 6
  alive0 : 0 ≤ a.aliveInQueue
  alive6 : a.aliveInQueue ≤ 6
  emptyRecv : a.aliveInQueue = 0 → a.recvIndex = a.currentIndex
  chain : (aliveSeg a).Chain' (ReplyStep limit)
  leLimit : ∀ u ∈ aliveSeg a, u.time ≤ limit
  finalIff : a.receivedFinal = true ↔
    (0 < a.aliveInQueue ∧ ((aliveSeg a).getLast?.getD default).time = limit ∧ 0 < limit)

lemma aliveSeg_length (a : UampAgent) : (aliveSeg a).length = a.aliveInQueue.toNat := by
  simp [aliveSeg]

lemma aliveSeg_getD (a : UampAgent) (k : Nat) (hk : k < a.aliveInQueue.toNat) :
    (aliveSeg a).getD k default = uGet a.updates (segSlot a k) := by
  simp [aliveSeg, List.getD, List.getElem?_map, List.getElem?_range hk]

lemma segStart_mem (a : UampAgent) : 0 ≤ segStart a ∧ segStart a < 6 := by
  unfold segStart
  omega

lemma segSlot_mem (a : UampAgent) (k : Nat) : 0 ≤ segSlot a k ∧ segSlot a k < 6 := by
  unfold segSlot
  omega

lemma uGet_set_ne (l : List UampUpdate) (m : Nat) (r : UampUpdate) (i : Int)
    (h : i.toNat ≠ m) : uGet (l.set m r) i = uGet l i := by
  simp [uGet, List.getD, List.getElem?_set_ne (Ne.symm h)]

lemma uGet_set_self (l : List UampUpdate) (r : UampUpdate) (i : Int)
    (h : i.toNat < l.length) : uGet (l.set i.toNat r) i = r := by
  simp [uGet, List.getD, List.getElem?_set_eq h]

/-- The committed agent of a successful `receiveReply`: reply stored at
`recvIndex`, `receivedFinal` as decided by the verification, then
`bumpRecv`. -/
def recvCommit (a : UampAgent) (r : UampUpdate) (b : Bool) : UampAgent :=
  bumpRecv { storedAgent a r with receivedFinal := b }

lemma recvCommit_currentIndex (a : UampAgent) (r : UampUpdate) (b : Bool) :
    (recvCommit a r b).currentIndex = a.currentIndex := rfl

lemma recvCommit_aliveInQueue (a : UampAgent) (r : UampUpdate) (b : Bool) :
    (recvCommit a r b).aliveInQueue = a.aliveInQueue + 1 := rfl

lemma recvCommit_receivedFinal (a : UampAgent) (r : UampUpdate) (b : Bool) :
    (recvCommit a r b).receivedFinal = b := rfl

lemma recvCommit_updates (a : UampAgent) (r : UampUpdate) (b : Bool) :
    (recvCommit a r b).updates = a.updates.set a.recvIndex.toNat r := rfl

lemma recvCommit_recvIndex (a : UampAgent) (r : UampUpdate) (b : Bool) :
    (recvCommit a r b).recvIndex =
      if a.recvIndex = (QUEUE_SIZE : Int) - 1 then 0 else a.recvIndex + 1 := rfl

lemma segStart_recvCommit (a : UampAgent) (r : UampUpdate) (b : Bool)
    (_h0 : 0 ≤ a.recvIndex) (_h6 : a.recvIndex < 6) :
    segStart (recvCommit a r b) = segStart a := by
  unfold segStart
  rw [recvCommit_recvIndex, recvCommit_aliveInQueue]
  simp only [QUEUE_SIZE]
  by_cases h : a.recvIndex = ((6 : Nat) : Int) - 1
  · rw [if_pos h]
    omega
  · rw [if_neg h]
    omega

/-- The write slot of `receiveReply` is the slot one past the alive
segment. -/
lemma recv_eq_segSlot (a : UampAgent) (h0 : 0 ≤ a.recvIndex) (h6 : a.recvIndex < 6)
    (ha : 0 ≤ a.aliveInQueue) :
    segSlot a a.aliveInQueue.toNat = a.recvIndex := by
  unfold segSlot segStart
  omega

lemma aliveSeg_recvCommit (limit : Nat) (a : UampAgent) (r : UampUpdate) (b : Bool)
    (h : RInv limit a) (hlt : a.aliveInQueue < 6) :
    aliveSeg (recvCommit a r b) = aliveSeg a ++ [r] := by
  have ha0 := h.alive0
  have halive : (recvCommit a r b).aliveInQueue.toNat = a.aliveInQueue.toNat + 1 := by
    rw [recvCommit_aliveInQueue]
    omega
  unfold aliveSeg
  rw [halive, List.range_succ, List.map_append, List.map_singleton]
  congr 1
  · apply List.map_congr_left
    intro k hk
    rw [List.mem_range] at hk
    have hs := segStart_recvCommit a r b h.recv0 h.recv6
    have hslot : segSlot (recvCommit a r b) k = segSlot a k := by
      unfold segSlot
      rw [hs]
    rw [hslot, recvCommit_updates]
    apply uGet_set_ne
    have h1 := segSlot_mem a k
    have h2 := recv_eq_segSlot a h.recv0 h.recv6 h.alive0
    have h3 := h.recv0
    have h4 := h.recv6
    unfold segSlot segStart at h1 h2 ⊢
    omega
  · have hs := segStart_recvCommit a r b h.recv0 h.recv6
    have hslot : segSlot (recvCommit a r b) a.aliveInQueue.toNat =
        segSlot a a.aliveInQueue.toNat := by
      unfold segSlot
      rw [hs]
    rw [hslot, recv_eq_segSlot a h.recv0 h.recv6 h.alive0, recvCommit_updates,
      uGet_set_self]
    rw [h.len]
    have h5 := h.recv0
    have h6 := h.recv6
    omega

/-- On a non-empty queue, the "previous reply in ring order" inspected by
`receiveReply` is the last element of the alive segment. -/
lemma prevStore_stored (limit : Nat) (a : UampAgent) (r : UampUpdate)
    (h : RInv limit a) (hpos : 0 < a.aliveInQueue) :
    prevStore (storedAgent a r) = (aliveSeg a).getLast?.getD default := by
  have h1 := h.recv0
  have h2 := h.recv6
  have h3 := h.alive0
  have h4 := h.alive6
  have hlast : (aliveSeg a).getLast?.getD default =
      uGet a.updates (segSlot a (a.aliveInQueue.toNat - 1)) := by
    rw [List.getLast?_eq_getElem?, aliveSeg_length]
    have hk : a.aliveInQueue.toNat - 1 < a.aliveInQueue.toNat := by omega
    have := aliveSeg_getD a (a.aliveInQueue.toNat - 1) hk
    rw [← this]
    simp [List.getD, aliveSeg_length]
  rw [hlast]
  unfold prevStore
  rw [storedAgent_recvIndex, storedAgent_updates]
  by_cases hr : a.recvIndex = 0
  · rw [if_pos hr]
    rw [uGet_set_ne a.updates a.recvIndex.toNat r ((QUEUE_SIZE : Int) - 1)
      (by simp only [QUEUE_SIZE]; omega)]
    congr 1
    unfold segSlot segStart QUEUE_SIZE
    omega
  · rw [if_neg hr]
    rw [uGet_set_ne a.updates a.recvIndex.toNat r (a.recvIndex - 1) (by omega)]
    congr 1
    unfold segSlot segStart
    omega

lemma aliveSeg_empty (a : UampAgent) (h0 : a.aliveInQueue = 0) : aliveSeg a = [] := by
  unfold aliveSeg
  rw [h0]
  rfl

/-- The committed state of a successful `receiveReply` satisfies the queue
invariant again, given the link between the old last reply and the new
one. -/
lemma RInv_recvCommit (limit : Nat) (a : UampAgent) (r : UampUpdate) (b : Bool)
    (h : RInv limit a) (hlt : a.aliveInQueue < 6)
    (hlink : ∀ x ∈ (aliveSeg a).getLast?, ReplyStep limit x r)
    (hr_le : r.time ≤ limit)
    (hfin : b = true ↔ (r.time = limit ∧ 0 < limit)) :
    RInv limit (recvCommit a r b) := by
  have hseg := aliveSeg_recvCommit limit a r b h hlt
  refine ⟨?_, ?_, ?_, ?_, ?_, ?_, ?_, ?_, ?_, ?_, ?_⟩
  · rw [recvCommit_updates, List.length_set, h.len]
  · rw [recvCommit_currentIndex]; exact h.cur0
  · rw [recvCommit_currentIndex]; exact h.cur6
  · rw [recvCommit_recvIndex]
    have h1 := h.recv0
    have h2 := h.recv6
    simp only [QUEUE_SIZE]
    by_cases hc : a.recvIndex = ((6 : Nat) : Int) - 1
    · rw [if_pos hc]
    · rw [if_neg hc]; omega
  · rw [recvCommit_recvIndex]
    have h1 := h.recv0
    have h2 := h.recv6
    simp only [QUEUE_SIZE]
    by_cases hc : a.recvIndex = ((6 : Nat) : Int) - 1
    · rw [if_pos hc]; omega
    · rw [if_neg hc]; omega
  · rw [recvCommit_aliveInQueue]
    have := h.alive0
    omega
  · rw [recvCommit_aliveInQueue]
    omega
  · rw [recvCommit_aliveInQueue]
    intro hz
    have := h.alive0
    omega
  · rw [hseg, List.chain'_append]
    refine ⟨h.chain, List.chain'_singleton r, ?_⟩
    intro x hx y hy
    simp only [List.head?_cons, Option.mem_def, Option.some.injEq] at hy
    subst hy
    exact hlink x hx
  · rw [hseg]
    intro u hu
    rcases List.mem_append.mp hu with hu | hu
    · exact h.leLimit u hu
    · simp only [List.mem_singleton] at hu
      subst hu
      exact hr_le
  · rw [recvCommit_receivedFinal, recvCommit_aliveInQueue, hseg, List.getLast?_concat]
    simp only [Option.getD_some]
    have := h.alive0
    constructor
    · intro hb
      exact ⟨by omega, (hfin.mp hb).1, (hfin.mp hb).2⟩
    · intro ⟨_, h1, h2⟩
      exact hfin.mpr ⟨h1, h2⟩

/-- One successful `receiveReply` preserves the queue invariant, increments
`aliveInQueue`, leaves the consumer cursor and the segment start alone, and
appends the reply to the alive segment; a reply accepted into an empty
queue has time 0. -/
lemma receiveReply_ok (limit : Nat) (a : UampAgent) (r : UampUpdate) (a' : UampAgent)
    (h : RInv limit a) (hlt : a.aliveInQueue < 6)
    (hok : receiveReply limit a r = .ok a') :
    RInv limit a' ∧
    a'.aliveInQueue = a.aliveInQueue + 1 ∧
    a'.currentIndex = a.currentIndex ∧
    segStart a' = segStart a ∧
    aliveSeg a' = aliveSeg a ++ [r] ∧
    (a.aliveInQueue = 0 → r.time = 0) := by
  rw [receiveReply_unfold] at hok
  by_cases h0 : a.aliveInQueue = 0
  · rw [if_pos h0] at hok
    by_cases ht : r.time ≠ 0
    · rw [if_pos ht] at hok
      exact absurd hok (by simp)
    · rw [if_neg ht] at hok
      push_neg at ht
      by_cases hp : r.present ≠ 0 ∧ r.present ≠ 1
      · rw [if_pos hp] at hok
        exact absurd hok (by simp)
      · rw [if_neg hp] at hok
        have heq : recvCommit a r a.receivedFinal = a' := Except.ok.inj hok
        subst heq
        have hfalse : a.receivedFinal = false := by
          by_contra hcon
          rw [Bool.not_eq_false] at hcon
          obtain ⟨hpos, -, -⟩ := h.finalIff.mp hcon
          omega
        refine ⟨RInv_recvCommit limit a r a.receivedFinal h hlt ?_ ?_ ?_,
          recvCommit_aliveInQueue a r _, recvCommit_currentIndex a r _,
          segStart_recvCommit a r _ h.recv0 h.recv6,
          aliveSeg_recvCommit limit a r _ h hlt, fun _ => ht⟩
        · intro x hx
          rw [aliveSeg_empty a h0] at hx
          simp at hx
        · rw [ht]
          omega
        · rw [hfalse]
          simp only [Bool.false_eq_true, false_iff]
          rw [ht]
          omega
  · rw [if_neg h0] at hok
    have hpos : 0 < a.aliveInQueue := lt_of_le_of_ne h.alive0 (Ne.symm h0)
    have hprev := prevStore_stored limit a r h hpos
    by_cases hf : a.receivedFinal
    · rw [if_pos hf] at hok
      by_cases hne : r ≠ prevStore (storedAgent a r)
      · rw [if_pos hne] at hok
        exact absurd hok (by simp)
      · rw [if_neg hne] at hok
        push_neg at hne
        by_cases hp : r.present ≠ 0 ∧ r.present ≠ 1
        · rw [if_pos hp] at hok
          exact absurd hok (by simp)
        · rw [if_neg hp] at hok
          have heq : recvCommit a r a.receivedFinal = a' := Except.ok.inj hok
          subst heq
          obtain ⟨-, hlastt, hlim⟩ := h.finalIff.mp hf
          refine ⟨RInv_recvCommit limit a r _ h hlt ?_ ?_ ?_,
            recvCommit_aliveInQueue a r _, recvCommit_currentIndex a r _,
            segStart_recvCommit a r _ h.recv0 h.recv6,
            aliveSeg_recvCommit limit a r _ h hlt, fun hz => absurd hz h0⟩
          · intro x hx
            have hxval : (aliveSeg a).getLast?.getD default = x := by
              rw [Option.mem_def] at hx
              rw [hx]
              rfl
            right
            constructor
            · rw [← hxval]
              exact hlastt
            · rw [hne, hprev, hxval]
          · rw [hne, hprev]
            exact le_of_eq hlastt
          · rw [hf]
            simp only [true_iff]
            refine ⟨?_, hlim⟩
            rw [hne, hprev]
            exact hlastt
    · rw [if_neg hf] at hok
      rw [Bool.not_eq_true] at hf
      by_cases hle : r.time ≤ (prevStore (storedAgent a r)).time
      · rw [if_pos hle] at hok
        exact absurd hok (by simp)
      · rw [if_neg hle] at hok
        push_neg at hle
        by_cases hbig : limit < r.time
        · rw [if_pos hbig] at hok
          exact absurd hok (by simp)
        · rw [if_neg hbig] at hok
          push_neg at hbig
          have hlast_lt : ((aliveSeg a).getLast?.getD default).time < r.time := by
            rw [← hprev]
            exact hle
          have hlink : ∀ x ∈ (aliveSeg a).getLast?, ReplyStep limit x r := by
            intro x hx
            have hxval : (aliveSeg a).getLast?.getD default = x := by
              rw [Option.mem_def] at hx
              rw [hx]
              rfl
            left
            exact ⟨by rw [← hxval]; exact hlast_lt, hbig⟩
          by_cases hl : r.time = limit
          · rw [if_pos hl] at hok
            by_cases hp : r.present ≠ 0 ∧ r.present ≠ 1
            · rw [if_pos hp] at hok
              exact absurd hok (by simp)
            · rw [if_neg hp] at hok
              have heq : recvCommit a r true = a' := Except.ok.inj hok
              subst heq
              refine ⟨RInv_recvCommit limit a r true h hlt hlink hbig ?_,
                recvCommit_aliveInQueue a r _, recvCommit_currentIndex a r _,
                segStart_recvCommit a r _ h.recv0 h.recv6,
                aliveSeg_recvCommit limit a r _ h hlt, fun hz => absurd hz h0⟩
              simp only [true_iff]
              exact ⟨hl, by omega⟩
          · rw [if_neg hl] at hok
            by_cases hp : r.present ≠ 0 ∧ r.present ≠ 1
            · rw [if_pos hp] at hok
              exact absurd hok (by simp)
            · rw [if_neg hp] at hok
              have heq : recvCommit a r a.receivedFinal = a' := Except.ok.inj hok
              subst heq
              refine ⟨RInv_recvCommit limit a r _ h hlt hlink hbig ?_,
                recvCommit_aliveInQueue a r _, recvCommit_currentIndex a r _,
                segStart_recvCommit a r _ h.recv0 h.recv6,
                aliveSeg_recvCommit limit a r _ h hlt, fun hz => absurd hz h0⟩
              rw [hf]
              simp only [Bool.false_eq_true, false_iff]
              rintro ⟨hcon, -⟩
              exact hl hcon

/-- Receiving `n` successive replies preserves the queue invariant, adds
`n` to `aliveInQueue`, leaves cursor and segment start alone, and appends
the received replies to the alive segment (the first of which has time 0
when the queue started empty). -/
lemma receiveN_ok (limit : Nat) : ∀ (n : Nat) (a : UampAgent)
    (oracle : List UampUpdate) (a' : UampAgent) (oracle' : List UampUpdate),
    RInv limit a → a.aliveInQueue + n ≤ 6 →
    receiveN limit a n oracle = .ok (a', oracle') →
    RInv limit a' ∧
    a'.aliveInQueue = a.aliveInQueue + n ∧
    a'.currentIndex = a.currentIndex ∧
    segStart a' = segStart a ∧
    ∃ rs : List UampUpdate, rs.length = n ∧ aliveSeg a' = aliveSeg a ++ rs ∧
      (a.aliveInQueue = 0 → 0 < n → (rs.getD 0 default).time = 0) := by
  intro n
  induction n with
  | zero =>
      intro a oracle a' oracle' h _ hok
      simp only [receiveN] at hok
      have h1 : a = a' ∧ oracle = oracle' := by
        have := Except.ok.inj hok
        exact ⟨congrArg Prod.fst this, congrArg Prod.snd this⟩
      obtain ⟨rfl, rfl⟩ := h1
      exact ⟨h, by omega, rfl, rfl, [], rfl, by simp, by omega⟩
  | succ n ih =>
      intro a oracle a' oracle' h hle hok
      cases oracle with
      | nil =>
          simp only [receiveN] at hok
          exact absurd hok (by simp)
      | cons r rest =>
          simp only [receiveN] at hok
          cases hrr : receiveReply limit a r with
          | error e =>
              rw [hrr] at hok
              exact absurd hok (by simp)
          | ok a1 =>
              rw [hrr] at hok
              obtain ⟨h1, halive1, hcur1, hseg1, hlist1, ht0⟩ :=
                receiveReply_ok limit a r a1 h (by omega) hrr
              obtain ⟨h2, halive2, hcur2, hseg2, rs1, hlen1, hsegs, -⟩ :=
                ih a1 rest a' oracle' h1 (by omega) hok
              refine ⟨h2, by omega, by rw [hcur2, hcur1],
                by rw [hseg2, hseg1], r :: rs1, by simp [hlen1], ?_, ?_⟩
              · rw [hsegs, hlist1, List.append_assoc, List.cons_append,
                  List.nil_append]
              · intro hz _
                simp only [List.getD_cons_zero]
                exact ht0 hz

/-- Relation between an agent's state before and after its slice of one
`fillUpdateQueues` pass: the invariant holds again, the consumer cursor and
segment start are untouched, the queue is full afterwards unless the final
update had been received (in which case nothing was requested), and the
received replies extend the alive segment. -/
def AgentFillRel (limit : Nat) (a a' : UampAgent) : Prop :=
  RInv limit a' ∧
  a'.currentIndex = a.currentIndex ∧
  segStart a' = segStart a ∧
  (a.receivedFinal = true → a'.aliveInQueue = a.aliveInQueue) ∧
  (a.receivedFinal = false → a'.aliveInQueue = 6) ∧
  a.aliveInQueue ≤ a'.aliveInQueue ∧
  ∃ rs, aliveSeg a' = aliveSeg a ++ rs ∧
    (a.aliveInQueue = 0 → 0 < a'.aliveInQueue → (rs.getD 0 default).time = 0)

lemma fillAgent_ok (limit : Nat) (a : UampAgent) (oracle : List UampUpdate)
    (a' : UampAgent) (oracle' : List UampUpdate) (h : RInv limit a)
    (hok : receiveN limit a (u32ofInt (numToRequest a)) oracle = .ok (a', oracle')) :
    AgentFillRel limit a a' := by
  have ha0 := h.alive0
  have ha6 := h.alive6
  by_cases hf : a.receivedFinal
  · have hn : u32ofInt (numToRequest a) = 0 := by
      simp [numToRequest, hf, u32ofInt]
    rw [hn] at hok
    obtain ⟨h', halive, hcur, hseg, rs, hlen, hsegs, ht0⟩ :=
      receiveN_ok limit 0 a oracle a' oracle' h (by omega) hok
    exact ⟨h', hcur, hseg, fun _ => by omega,
      fun hcon => absurd hf (by rw [hcon]; simp), by omega, rs, hsegs,
      fun hz hpos => ht0 hz (by omega)⟩
  · have hn : u32ofInt (numToRequest a) = ((QUEUE_SIZE : Int) - a.aliveInQueue).toNat := by
      simp only [numToRequest, hf, Bool.false_eq_true, ite_false, u32ofInt, QUEUE_SIZE]
      rw [Int.emod_eq_of_lt (by omega) (by omega)]
    rw [hn] at hok
    obtain ⟨h', halive, hcur, hseg, rs, hlen, hsegs, ht0⟩ :=
      receiveN_ok limit _ a oracle a' oracle' h
        (by simp only [QUEUE_SIZE]; omega) hok
    have halive6 : a'.aliveInQueue = 6 := by
      rw [halive]
      simp only [QUEUE_SIZE] at *
      omega
    refine ⟨h', hcur, hseg,
      fun hcon => absurd hcon (by rw [Bool.not_eq_true] at hf; rw [hf]; simp),
      fun _ => halive6, by omega, rs, hsegs, fun hz hpos => ht0 hz (by omega)⟩

lemma fillAgentsList_ok (limit : Nat) : ∀ (l : List UampAgent)
    (oracle : List UampUpdate) (l' : List UampAgent) (oracle' : List UampUpdate),
    (∀ a ∈ l, RInv limit a) →
    fillAgentsList limit l oracle = .ok (l', oracle') →
    List.Forall₂ (AgentFillRel limit) l l' := by
  intro l
  induction l with
  | nil =>
      intro oracle l' oracle' _ hok
      simp only [fillAgentsList] at hok
      have h1 : ([] : List UampAgent) = l' := congrArg Prod.fst (Except.ok.inj hok)
      rw [← h1]
      exact List.Forall₂.nil
  | cons a rest ih =>
      intro oracle l' oracle' hinv hok
      simp only [fillAgentsList] at hok
      split at hok
      · exact absurd hok (by simp)
      · rename_i a1 o1 heq1
        split at hok
        · exact absurd hok (by simp)
        · rename_i l1 o2 heq2
          have hfst : a1 :: l1 = l' := congrArg Prod.fst (Except.ok.inj hok)
          rw [← hfst]
          exact List.Forall₂.cons
            (fillAgent_ok limit a oracle a1 o1 (hinv a (by simp)) heq1)
            (ih o1 l1 o2 (fun b hb => hinv b (by simp [hb])) heq2)

lemma fillUpdateQueuesM_ok (c : UampClient) (oracle : List UampUpdate)
    (c' : UampClient) (oracle' : List UampUpdate)
    (hinv : ∀ a ∈ c.agents, RInv c.timeLimit a)
    (hok : fillUpdateQueuesM c oracle = .ok (c', oracle')) :
    List.Forall₂ (AgentFillRel c.timeLimit) c.agents c'.agents ∧
    c'.fd = c.fd ∧ c'.numAgents = c.numAgents ∧ c'.timeLimit = c.timeLimit ∧
    c'.numStates = c.numStates ∧ c'.largestLastTime = c.largestLastTime ∧
    c'.smallestCurrentTime = c.smallestCurrentTime ∧ c'.changes = c.changes := by
  unfold fillUpdateQueuesM at hok
  split at hok
  · exact absurd hok (by simp)
  · rename_i ags o heq1
    have hc : { c with agents := ags } = c' := congrArg Prod.fst (Except.ok.inj hok)
    subst hc
    exact ⟨fillAgentsList_ok c.timeLimit c.agents oracle ags o hinv heq1,
      rfl, rfl, rfl, rfl, rfl, rfl, rfl⟩

section ListHelpers

variable {α : Type _}

lemma getD_mem (l : List α) (n : Nat) (d : α) (h : n < l.length) :
    l.getD n d ∈ l := by
  rw [List.getD_eq_getElem l d h]
  exact List.getElem_mem h

lemma getD_set_ne (l : List α) (m : Nat) (x d : α) (j : Nat) (h : j ≠ m) :
    (l.set m x).getD j d = l.getD j d := by
  simp [List.getD, List.getElem?_set_ne (Ne.symm h)]

lemma getD_set_self (l : List α) (x d : α) (m : Nat) (h : m < l.length) :
    (l.set m x).getD m d = x := by
  simp [List.getD, List.getElem?_set_self, h]

lemma chain'_getD {R : α → α → Prop} (l : List α) (h : l.Chain' R) (i : Nat)
    (d : α) (hi : i + 1 < l.length) : R (l.getD i d) (l.getD (i + 1) d) := by
  have h2 := List.chain'_iff_get.mp h i (by omega)
  rw [List.getD_eq_get l d (by omega), List.getD_eq_get l d hi]
  exact h2

lemma forall₂_getD {β : Type _} {R : α → β → Prop} (da : α) (db : β) :
    ∀ (l : List α) (l' : List β), List.Forall₂ R l l' →
    ∀ i, i < l.length → R (l.getD i da) (l'.getD i db) := by
  intro l
  induction l with
  | nil => intro l' _ i hi; simp at hi
  | cons a rest ih =>
      intro l' hrel i hi
      cases hrel with
      | cons hab htail =>
          cases i with
          | zero => simpa using hab
          | succ k =>
              simp only [List.getD_cons_succ]
              exact ih _ htail k (by simpa using hi)

end ListHelpers

lemma segSlot_zero (a : UampAgent) : segSlot a 0 = segStart a := by
  unfold segSlot segStart
  omega

lemma segSlot_one (a : UampAgent) : segSlot a 1 = (segStart a + 1) % 6 := by
  unfold segSlot
  norm_num

lemma cycInc (i : Int) (h0 : 0 ≤ i) (h6 : i < 6) :
    (if i = (QUEUE_SIZE : Int) - 1 then 0 else i + 1) = (i + 1) % 6 := by
  simp only [QUEUE_SIZE]
  by_cases h : i = ((6 : Nat) : Int) - 1
  · rw [if_pos h]; omega
  · rw [if_neg h]; omega

/-- The consumer-cursor invariant of a connected agent: the queue invariant
holds, at least two updates are alive (the current one and either the next
or the still-referenced previous), and the current slot sits at position 0
of the alive segment before the first advance (`time = 0`, queue full) and
at position 1 afterwards (so that position 0 is the previous update). -/
def AgentInv (limit : Nat) (a : UampAgent) : Prop :=
  RInv limit a ∧
  2 ≤ a.aliveInQueue ∧
  ((agentCurrentUpdate a).time = 0 → a.currentIndex = segStart a ∧ a.aliveInQueue = 6) ∧
  ((agentCurrentUpdate a).time ≠ 0 → a.currentIndex = (segStart a + 1) % 6)

lemma agentCurrent_seg (a : UampAgent) (p : Nat) (hp : p < a.aliveInQueue.toNat)
    (hidx : a.currentIndex = segSlot a p) :
    agentCurrentUpdate a = (aliveSeg a).getD p default := by
  rw [aliveSeg_getD a p hp]
  unfold agentCurrentUpdate
  rw [hidx]

/-- The current position of an agent satisfying the cursor invariant. -/
lemma AgentInv_pos (limit : Nat) (a : UampAgent) (hA : AgentInv limit a) :
    ∃ p : Nat, p ≤ 1 ∧ p < a.aliveInQueue.toNat ∧ a.currentIndex = segSlot a p ∧
      ((agentCurrentUpdate a).time = 0 → p = 0) := by
  obtain ⟨hR, h2, hz, hnz⟩ := hA
  have ha0 := hR.alive0
  by_cases ht : (agentCurrentUpdate a).time = 0
  · exact ⟨0, by omega, by omega, by rw [segSlot_zero]; exact (hz ht).1, fun _ => rfl⟩
  · exact ⟨1, le_refl 1, by omega, by rw [segSlot_one]; exact hnz ht,
      fun hcon => absurd hcon ht⟩

/-- A fill pass on an agent already satisfying the cursor invariant
preserves it and leaves the current update untouched. -/
lemma AgentInv_fill (limit : Nat) (a a' : UampAgent) (hA : AgentInv limit a)
    (hrel : AgentFillRel limit a a') :
    AgentInv limit a' ∧ agentCurrentUpdate a' = agentCurrentUpdate a := by
  obtain ⟨hR', hcur, hss, hfinal, hnotfinal, hmono, rs, hseg, -⟩ := hrel
  obtain ⟨hR, h2, hz, hnz⟩ := hA
  obtain ⟨p, hp1, hplt, hpidx, hp0⟩ := AgentInv_pos limit a ⟨hR, h2, hz, hnz⟩
  have ha0 := hR.alive0
  have ha0' := hR'.alive0
  have hplt' : p < a'.aliveInQueue.toNat := by omega
  have hpidx' : a'.currentIndex = segSlot a' p := by
    rw [hcur, hpidx]
    unfold segSlot
    rw [hss]
  have hval : agentCurrentUpdate a' = agentCurrentUpdate a := by
    rw [agentCurrent_seg a p hplt hpidx, agentCurrent_seg a' p hplt' hpidx', hseg]
    rw [List.getD_append]
    rw [aliveSeg_length]
    omega
  refine ⟨⟨hR', by omega, ?_, ?_⟩, hval⟩
  · intro ht
    rw [hval] at ht
    obtain ⟨hidx, hfull⟩ := hz ht
    refine ⟨?_, ?_⟩
    · rw [hcur, hidx, hss]
    · have := hR'.alive6
      omega
  · intro ht
    rw [hval] at ht
    rw [hcur, hnz ht]
    rw [hss]

lemma getD_tail {α : Type _} (l : List α) (i : Nat) (d : α) :
    l.tail.getD i d = l.getD (i + 1) d := by
  cases l <;> simp [List.getD]

lemma advanceQueue_proj (a : UampAgent) :
    (advanceQueue a).updates = a.updates ∧
    (advanceQueue a).recvIndex = a.recvIndex ∧
    (advanceQueue a).receivedFinal = a.receivedFinal ∧
    (advanceQueue a).aliveInQueue =
      (if (agentCurrentUpdate a).time ≠ 0 then a.aliveInQueue - 1
       else a.aliveInQueue) ∧
    (advanceQueue a).currentIndex =
      (if a.currentIndex = (QUEUE_SIZE : Int) - 1 then 0 else a.currentIndex + 1) := by
  unfold advanceQueue agentCurrentUpdate
  by_cases h : (uGet a.updates a.currentIndex).time ≠ 0 <;> simp [h]

lemma aliveSeg_advance_tail (a : UampAgent) (hnz : (agentCurrentUpdate a).time ≠ 0)
    (ha1 : 1 ≤ a.aliveInQueue) :
    aliveSeg (advanceQueue a) = (aliveSeg a).tail := by
  obtain ⟨hu, hr, -, hal, -⟩ := advanceQueue_proj a
  rw [if_pos hnz] at hal
  unfold aliveSeg
  rw [hal, hu, show a.aliveInQueue.toNat = (a.aliveInQueue - 1).toNat + 1 from by omega,
    List.range_succ_eq_map, List.map_cons, List.tail_cons, List.map_map]
  apply List.map_congr_left
  intro k hk
  simp only [Function.comp_apply]
  congr 1
  unfold segSlot segStart
  rw [hr, hal]
  omega

lemma segStart_advance (a : UampAgent) (hnz : (agentCurrentUpdate a).time ≠ 0)
    (_ha1 : 1 ≤ a.aliveInQueue) :
    segStart (advanceQueue a) = (segStart a + 1) % 6 := by
  obtain ⟨-, hr, -, hal, -⟩ := advanceQueue_proj a
  rw [if_pos hnz] at hal
  unfold segStart
  rw [hr, hal]
  omega

/-- `getLast?.getD` as an indexed access. -/
lemma getLastD_eq_getD {α : Type _} (l : List α) (d : α) :
    l.getLast?.getD d = l.getD (l.length - 1) d := by
  rw [List.getLast?_eq_getElem?, List.getD_eq_getElem?_getD]

/-- The queue-cursor advance of `advanceAgent` under the `uampAdvance`
guard: either at least two alive updates remain — the cursor invariant is
restored directly and the current time strictly increased — or exactly one
remains (the refill case): the old current update is the only alive one,
the cursor sits on the next write slot, and the final update had not been
received. -/
lemma advanceQueue_spec (limit : Nat) (a : UampAgent) (hA : AgentInv limit a)
    (hguard : (agentCurrentUpdate a).time ≠ limit) :
    (advanceQueue a).updates = a.updates ∧
    (advanceQueue a).recvIndex = a.recvIndex ∧
    (advanceQueue a).receivedFinal = a.receivedFinal ∧
    a.aliveInQueue - 1 ≤ (advanceQueue a).aliveInQueue ∧
    ((advanceQueue a).aliveInQueue ≠ 1 →
       AgentInv limit (advanceQueue a) ∧
       (agentCurrentUpdate a).time < (agentCurrentUpdate (advanceQueue a)).time) ∧
    ((advanceQueue a).aliveInQueue = 1 →
       RInv limit (advanceQueue a) ∧
       (advanceQueue a).currentIndex = a.recvIndex ∧
       a.receivedFinal = false ∧
       aliveSeg (advanceQueue a) = [agentCurrentUpdate a] ∧
       (agentCurrentUpdate a).time ≠ 0) := by
  obtain ⟨hR, h2, hz, hnz⟩ := hA
  obtain ⟨hu, hr, hf, hal, hc⟩ := advanceQueue_proj a
  have ha0 := hR.alive0
  have ha6 := hR.alive6
  have hc0 := hR.cur0
  have hc6 := hR.cur6
  have hr0 := hR.recv0
  have hr6 := hR.recv6
  have hlen := hR.len
  have hcyc : (advanceQueue a).currentIndex = (a.currentIndex + 1) % 6 := by
    rw [hc, cycInc a.currentIndex hc0 hc6]
  by_cases ht : (agentCurrentUpdate a).time = 0
  · -- before the first advance: position 0, full queue, nothing retired
    obtain ⟨hidx, hfull⟩ := hz ht
    have hal0 : (advanceQueue a).aliveInQueue = a.aliveInQueue := by
      rw [hal, if_neg (by simpa using ht)]
    have hss : segStart (advanceQueue a) = segStart a := by
      unfold segStart
      rw [hr, hal0]
    have hseg : aliveSeg (advanceQueue a) = aliveSeg a := by
      unfold aliveSeg
      rw [hal0, hu]
      apply List.map_congr_left
      intro k _
      congr 1
      unfold segSlot
      rw [hss]
    have hidx2 : (advanceQueue a).currentIndex = (segStart (advanceQueue a) + 1) % 6 := by
      rw [hcyc, hidx, hss]
    have hcurA : agentCurrentUpdate (advanceQueue a) = (aliveSeg a).getD 1 default := by
      rw [← hseg]
      apply agentCurrent_seg
      · rw [hal0]; omega
      · rw [hidx2, segSlot_one]
    have hcurB : agentCurrentUpdate a = (aliveSeg a).getD 0 default := by
      apply agentCurrent_seg
      · omega
      · rw [segSlot_zero, hidx]
    have hstep : ReplyStep limit ((aliveSeg a).getD 0 default)
        ((aliveSeg a).getD 1 default) := by
      apply chain'_getD _ hR.chain
      rw [aliveSeg_length]
      omega
    have htlt : (agentCurrentUpdate a).time < (agentCurrentUpdate (advanceQueue a)).time := by
      rcases hstep with ⟨hlt, -⟩ | ⟨hlim, -⟩
      · rw [hcurB, hcurA]; exact hlt
      · exfalso
        apply hguard
        rw [hcurB]
        exact hlim
    have hRinv2 : RInv limit (advanceQueue a) := by
      refine ⟨by rw [hu]; exact hlen, by rw [hcyc]; omega, by rw [hcyc]; omega,
        by rw [hr]; exact hr0, by rw [hr]; exact hr6,
        by rw [hal0]; omega, by rw [hal0]; omega,
        by rw [hal0]; intro hcon; omega,
        by rw [hseg]; exact hR.chain, by rw [hseg]; exact hR.leLimit, ?_⟩
      rw [hf, hseg, hal0]
      exact hR.finalIff
    refine ⟨hu, hr, hf, by omega, fun _ => ⟨⟨hRinv2, by rw [hal0]; omega, ?_, fun _ => hidx2⟩, htlt⟩,
      fun hcon => absurd hcon (by rw [hal0]; omega)⟩
    intro hcon
    exact absurd hcon (by omega)
  · -- past the first advance: position 1, the previous update is retired
    have hidx := hnz ht
    have hal1 : (advanceQueue a).aliveInQueue = a.aliveInQueue - 1 := by
      rw [hal, if_pos (by simpa using ht)]
    have hseg := aliveSeg_advance_tail a ht (by omega)
    have hss := segStart_advance a ht (by omega)
    have hcur1 : agentCurrentUpdate a = (aliveSeg a).getD 1 default := by
      apply agentCurrent_seg
      · omega
      · rw [segSlot_one, hidx]
    have hlast : (aliveSeg (advanceQueue a)).getLast?.getD default =
        (aliveSeg a).getLast?.getD default := by
      rw [getLastD_eq_getD, getLastD_eq_getD, hseg, getD_tail, List.length_tail,
        aliveSeg_length]
      congr 1
      omega
    have hRinv2 : RInv limit (advanceQueue a) := by
      refine ⟨by rw [hu]; exact hlen, by rw [hcyc]; omega, by rw [hcyc]; omega,
        by rw [hr]; exact hr0, by rw [hr]; exact hr6,
        by rw [hal1]; omega, by rw [hal1]; omega,
        by rw [hal1]; intro hcon; omega,
        by rw [hseg]; exact hR.chain.tail,
        by rw [hseg]; intro u hu2; exact hR.leLimit u (List.mem_of_mem_tail hu2), ?_⟩
      rw [hf, hlast, hal1]
      constructor
      · intro hb
        obtain ⟨-, hlim, hl0⟩ := hR.finalIff.mp hb
        exact ⟨by omega, hlim, hl0⟩
      · rintro ⟨-, hlim, hl0⟩
        exact hR.finalIff.mpr ⟨by omega, hlim, hl0⟩
    refine ⟨hu, hr, hf, by omega, ?_, ?_⟩
    · intro hne1
      have h3 : 3 ≤ a.aliveInQueue := by omega
      have hidx2 : (advanceQueue a).currentIndex = (segStart (advanceQueue a) + 1) % 6 := by
        rw [hcyc, hidx, hss]
      have hcurval : agentCurrentUpdate (advanceQueue a) = (aliveSeg a).getD 2 default := by
        have hv : agentCurrentUpdate (advanceQueue a) =
            (aliveSeg (advanceQueue a)).getD 1 default := by
          apply agentCurrent_seg
          · rw [hal1]; omega
          · rw [hidx2, segSlot_one]
        rw [hv, hseg, getD_tail]
      have hstep : ReplyStep limit ((aliveSeg a).getD 1 default)
          ((aliveSeg a).getD 2 default) := by
        apply chain'_getD _ hR.chain
        rw [aliveSeg_length]
        omega
      have htlt : (agentCurrentUpdate a).time <
          (agentCurrentUpdate (advanceQueue a)).time := by
        rcases hstep with ⟨hlt, -⟩ | ⟨hlim, -⟩
        · rw [hcur1, hcurval]; exact hlt
        · exfalso
          apply hguard
          rw [hcur1]
          exact hlim
      refine ⟨⟨hRinv2, by rw [hal1]; omega, ?_, fun _ => hidx2⟩, htlt⟩
      intro hcon
      exact absurd hcon (by omega)
    · intro hone
      have h2e : a.aliveInQueue = 2 := by omega
      have hfinal_false : a.receivedFinal = false := by
        by_contra hcon
        rw [Bool.not_eq_false] at hcon
        obtain ⟨-, hlim, -⟩ := hR.finalIff.mp hcon
        apply hguard
        rw [getLastD_eq_getD, aliveSeg_length] at hlim
        rw [hcur1]
        have hi : a.aliveInQueue.toNat - 1 = 1 := by omega
        rw [hi] at hlim
        exact hlim
      have hsingle : aliveSeg (advanceQueue a) = [agentCurrentUpdate a] := by
        have hlen1 : (aliveSeg (advanceQueue a)).length = 1 := by
          rw [aliveSeg_length, hone]
          rfl
        obtain ⟨x, hx⟩ := List.length_eq_one.mp hlen1
        rw [hx]
        have hx0 : x = (aliveSeg (advanceQueue a)).getD 0 default := by
          rw [hx]
          rfl
        rw [hx0, hseg, getD_tail, ← hcur1]
      have hidx3 : (advanceQueue a).currentIndex = a.recvIndex := by
        rw [hcyc, hidx]
        have h2r := recv_eq_segSlot a hr0 hr6 ha0
        unfold segSlot segStart at h2r
        unfold segStart
        omega
      exact ⟨hRinv2, hidx3, hfinal_false, hsingle, ht⟩

/-! ## The connected-session invariant (claims C2 and C5) -/

/-- The queue invariant of a freshly-initialised agent (all-zero `calloc`
state of `uampConnect`). -/
lemma RInv_initAgent (limit : Nat) : RInv limit initAgent := by
  have hseg : aliveSeg initAgent = [] := aliveSeg_empty initAgent rfl
  refine ⟨by decide, by decide, by decide, by decide, by decide, by decide, by decide,
    fun _ => rfl, by rw [hseg]; exact List.chain'_nil,
    by rw [hseg]; intro u hu; simp at hu, ?_⟩
  rw [hseg]
  simp [initAgent]

/-- An agent filled from the all-zero initial state satisfies the cursor
invariant with a current update of time 0. -/
lemma AgentInv_postInit (limit : Nat) (a' : UampAgent)
    (hrel : AgentFillRel limit initAgent a') :
    AgentInv limit a' ∧ (agentCurrentUpdate a').time = 0 := by
  obtain ⟨hR', hcur, hss, -, hful, -, rs, hseg, ht0⟩ := hrel
  have h6 : a'.aliveInQueue = 6 := hful rfl
  have hpos0 : a'.currentIndex = segSlot a' 0 := by
    rw [segSlot_zero, hcur, hss]
    decide
  have hcs : agentCurrentUpdate a' = (aliveSeg a').getD 0 default :=
    agentCurrent_seg a' 0 (by omega) hpos0
  have htime : (agentCurrentUpdate a').time = 0 := by
    rw [hcs, hseg, aliveSeg_empty initAgent rfl, List.nil_append]
    exact ht0 rfl (by omega)
  refine ⟨⟨hR', by omega, fun _ => ⟨by rw [← segSlot_zero]; exact hpos0, h6⟩,
    fun hcon => absurd htime hcon⟩, htime⟩

/-- The running-minimum fold of `uampAdvance` (uampClient.c, lines 348-353),
abstracted over the per-index value. -/
def minFoldF (f : Nat → Nat) (l : List Nat) (init : Nat) : Nat :=
  l.foldl (fun acc j => if f j < acc then f j else acc) init

lemma minFold_spec (f : Nat → Nat) : ∀ (l : List Nat) (init : Nat),
    (∀ i ∈ l, minFoldF f l init ≤ f i) ∧ minFoldF f l init ≤ init ∧
    (minFoldF f l init = init ∨ ∃ i ∈ l, minFoldF f l init = f i) := by
  intro l
  induction l with
  | nil =>
      intro init
      exact ⟨by simp, le_refl _, Or.inl rfl⟩
  | cons j rest ih =>
      intro init
      have hstep : minFoldF f (j :: rest) init =
          minFoldF f rest (if f j < init then f j else init) := rfl
      obtain ⟨h1, h2, h3⟩ := ih (if f j < init then f j else init)
      refine ⟨?_, ?_, ?_⟩
      · intro i hi
        rcases List.mem_cons.mp hi with rfl | hi
        · rw [hstep]
          refine le_trans h2 ?_
          split <;> omega
        · rw [hstep]
          exact h1 i hi
      · rw [hstep]
        refine le_trans h2 ?_
        split <;> omega
      · rw [hstep]
        by_cases hj : f j < init
        · rw [if_pos hj] at h3 ⊢
          rcases h3 with heq | ⟨i, hi, heq⟩
          · exact Or.inr ⟨j, by simp, heq⟩
          · exact Or.inr ⟨i, List.mem_cons_of_mem _ hi, heq⟩
        · rw [if_neg hj] at h3 ⊢
          rcases h3 with heq | ⟨i, hi, heq⟩
          · exact Or.inl heq
          · exact Or.inr ⟨i, List.mem_cons_of_mem _ hi, heq⟩

/-- `minCurrentFold` is a lower bound on the agents' current times and, when
there is at least one agent whose time is within `uint32_t` range, attained
at one of them. -/
lemma minCurrentFold_spec (c : UampClient) (h1 : 1 ≤ c.numAgents)
    (hle : ∀ i, i < c.numAgents → (getCurrentUpdate c i).time ≤ UINT32_MAX) :
    (∀ i, i < c.numAgents → minCurrentFold c ≤ (getCurrentUpdate c i).time) ∧
    ∃ i, i < c.numAgents ∧ minCurrentFold c = (getCurrentUpdate c i).time := by
  have hmf : minCurrentFold c =
      minFoldF (fun i => (getCurrentUpdate c i).time) (List.range c.numAgents)
        UINT32_MAX := rfl
  obtain ⟨ha, hb, hc⟩ := minFold_spec (fun i => (getCurrentUpdate c i).time)
    (List.range c.numAgents) UINT32_MAX
  constructor
  · intro i hi
    rw [hmf]
    exact ha i (List.mem_range.mpr hi)
  · rcases hc with heq | ⟨i, hi, heq⟩
    · refine ⟨0, by omega, ?_⟩
      have h0 := ha 0 (List.mem_range.mpr (by omega))
      have h0le := hle 0 (by omega)
      rw [hmf]
      simp only at h0 heq
      omega
    · exact ⟨i, List.mem_range.mp hi, by rw [hmf]; exact heq⟩

/-- The current time of an agent satisfying the cursor invariant is within
the session time limit. -/
lemma AgentInv_time_le (limit : Nat) (a : UampAgent) (hA : AgentInv limit a) :
    (agentCurrentUpdate a).time ≤ limit := by
  obtain ⟨p, -, hplt, hpidx, -⟩ := AgentInv_pos limit a hA
  rw [agentCurrent_seg a p hplt hpidx]
  apply hA.1.leLimit
  apply getD_mem
  rw [aliveSeg_length]
  exact hplt

/-- The client-level invariant of a connected session: at least one agent,
the agents array of the negotiated size, a `uint32_t` time limit, every
agent's cursor invariant, and the cached `smallestCurrentTime` equal to the
fold the code uses to recompute it. -/
def ClientInv (c : UampClient) : Prop :=
  1 ≤ c.numAgents ∧
  c.agents.length = c.numAgents ∧
  c.timeLimit ≤ UINT32_MAX ∧
  (∀ a ∈ c.agents, AgentInv c.timeLimit a) ∧
  c.smallestCurrentTime = minCurrentFold c

lemma ClientInv_time_le (c : UampClient) (hC : ClientInv c) :
    ∀ i, i < c.numAgents → (getCurrentUpdate c i).time ≤ UINT32_MAX := by
  obtain ⟨h1, hlen, hTL, hag, -⟩ := hC
  intro i hi
  have hmem : c.agents.getD i default ∈ c.agents := getD_mem _ _ _ (by omega)
  exact le_trans (AgentInv_time_le _ _ (hag _ hmem)) hTL

/-- The client state `uampConnect` (uampClient.c, lines 54-105) assembles
before calling `initializeQueues`: validated agent count, `calloc`-zeroed
agents, and both cached cursor times zero. -/
def connSetup (fd : Int) (f3d fAR : Bool) (numAgents timeLimit : Nat) : UampClient :=
  { fd := fd, serverFeatures3D := f3d, serverFeaturesAddRemove := fAR
    numAgents := numAgents, timeLimit := timeLimit, numStates := 0
    agents := List.replicate numAgents initAgent
    largestLastTime := 0, smallestCurrentTime := 0, changes := [] }

/-- A connected UAMP session: the result of a successful `initializeQueues`
on the pre-initialisation state of `uampConnect`, for a validated agent
count (`numAgents >= 1`) and a time limit within `uint32_t` range. -/
def PostConnect (c : UampClient) : Prop :=
  ∃ (fd : Int) (f3d fAR : Bool) (numAgents timeLimit : Nat)
    (oracle oracleRest : List UampUpdate),
    1 ≤ numAgents ∧ timeLimit ≤ UINT32_MAX ∧
    initializeQueues (connSetup fd f3d fAR numAgents timeLimit) oracle =
      .ok (c, oracleRest)

/-- Immediately after connecting, the client invariant holds, both cached
cursor times are 0, and every agent's current update has time 0. -/
lemma postConnect_inv (c : UampClient) (h : PostConnect c) :
    ClientInv c ∧ c.largestLastTime = 0 ∧ c.smallestCurrentTime = 0 ∧
    ∀ i, i < c.numAgents → (getCurrentUpdate c i).time = 0 := by
  obtain ⟨fd, f3d, fAR, nA, tL, oracle, oracleRest, hnA, htL, hok⟩ := h
  unfold initializeQueues at hok
  obtain ⟨hrel, hfd, hnum, hlim, hns, hlg, hsm, hch⟩ :=
    fillUpdateQueuesM_ok _ oracle c oracleRest
      (fun a ha => by
        have hEq : a = initAgent := List.eq_of_mem_replicate ha
        rw [hEq]
        exact RInv_initAgent _) hok
  have hnum2 : c.numAgents = nA := hnum
  have hlim2 : c.timeLimit = tL := hlim
  have hlg2 : c.largestLastTime = 0 := hlg
  have hsm2 : c.smallestCurrentTime = 0 := hsm
  have hlen : c.agents.length = nA := by
    have hl := List.Forall₂.length_eq hrel
    simpa [connSetup] using hl.symm
  have hagents : ∀ i, i < nA → AgentInv c.timeLimit (c.agents.getD i default) ∧
      (agentCurrentUpdate (c.agents.getD i default)).time = 0 := by
    intro i hi
    have hrelI := forall₂_getD default default _ _ hrel i
      (by simp [connSetup]; omega)
    have hL : (connSetup fd f3d fAR nA tL).agents.getD i default = initAgent := by
      show (List.replicate nA initAgent).getD i default = initAgent
      rw [List.getD_eq_getElem _ _ (by simpa using hi)]
      simp
    rw [hL] at hrelI
    have hres := AgentInv_postInit tL _ hrelI
    rw [hlim2]
    exact hres
  have hmin : minCurrentFold c = 0 := by
    obtain ⟨hle2, -⟩ := minCurrentFold_spec c (by omega)
      (fun i hi => by
        have h0 := (hagents i (by omega)).2
        show (agentCurrentUpdate (c.agents.getD i default)).time ≤ UINT32_MAX
        omega)
    have hlow := hle2 0 (by omega)
    have h0 := (hagents 0 (by omega)).2
    have h0c : (getCurrentUpdate c 0).time = 0 := h0
    omega
  refine ⟨⟨by omega, by omega, by omega, ?_, by rw [hsm2, hmin]⟩, hlg2, hsm2, ?_⟩
  · intro a ha
    obtain ⟨i, hi, hEq⟩ := List.mem_iff_getElem.mp ha
    have hEq2 : a = c.agents.getD i default := by
      rw [← hEq, List.getD_eq_getElem _ _ hi]
    rw [hEq2]
    exact (hagents i (by omega)).1
  · intro i hi
    exact (hagents i (by omega)).2


/-- Refilling the queues right after an advance that left exactly one alive
update (the old current one) restores the cursor invariant, strictly
increases the current time, and leaves the old current update in place at
the old cursor slot (the pointer `uampAdvance` re-reads). -/
lemma AgentInv_refill (limit : Nat) (a a0 a2 : UampAgent)
    (hA : AgentInv limit a)
    (_hs1 : RInv limit a0)
    (hs2 : a0.aliveInQueue = 1)
    (hs3 : a0.currentIndex = a.recvIndex)
    (hs4 : a0.receivedFinal = false)
    (hs5 : aliveSeg a0 = [agentCurrentUpdate a])
    (hs6 : (agentCurrentUpdate a).time ≠ 0)
    (hs7 : a0.recvIndex = a.recvIndex)
    (hs8 : a.aliveInQueue = 2)
    (hguard : (agentCurrentUpdate a).time ≠ limit)
    (hrel : AgentFillRel limit a0 a2) :
    AgentInv limit a2 ∧
    (agentCurrentUpdate a).time < (agentCurrentUpdate a2).time ∧
    uGet a2.updates a.currentIndex = agentCurrentUpdate a := by
  obtain ⟨hR2, hcur2, hss2, -, hful2, -, rs, hseg2, -⟩ := hrel
  have h6 : a2.aliveInQueue = 6 := hful2 hs4
  have hrecv0 := hA.1.recv0
  have hrecv6 := hA.1.recv6
  have hpos1 : a2.currentIndex = segSlot a2 1 := by
    rw [hcur2, hs3]
    unfold segSlot
    rw [hss2]
    unfold segStart
    rw [hs7, hs2]
    omega
  have hcur2v : agentCurrentUpdate a2 = (aliveSeg a2).getD 1 default :=
    agentCurrent_seg a2 1 (by omega) hpos1
  have h0v : (aliveSeg a2).getD 0 default = agentCurrentUpdate a := by
    rw [hseg2, hs5]
    rfl
  have hstep := chain'_getD (aliveSeg a2) hR2.chain 0 default
    (by rw [aliveSeg_length]; omega)
  rw [h0v, ← hcur2v] at hstep
  have htlt : (agentCurrentUpdate a).time < (agentCurrentUpdate a2).time := by
    rcases hstep with ⟨hlt, -⟩ | ⟨hlim, -⟩
    · exact hlt
    · exact absurd hlim hguard
  have hidxa : a.currentIndex = segSlot a2 0 := by
    rw [hA.2.2.2 hs6]
    unfold segSlot
    rw [hss2]
    unfold segStart
    rw [hs7, hs2, hs8]
    omega
  refine ⟨⟨hR2, by omega, fun hcon => absurd hcon (by omega),
    fun _ => by rw [hpos1, segSlot_one]⟩, htlt, ?_⟩
  rw [hidxa, ← aliveSeg_getD a2 0 (by omega), h0v]

/-- `advanceAgent` at the client level under the `uampAdvance` guard: the
cursor invariant of every agent is restored, the advanced agent's current
time strictly increases, every other agent's current update is untouched,
all non-agent fields of the client are untouched, and the old current
update is still stored at the old cursor slot. -/
lemma advanceAgent_ok (c : UampClient) (agentID : Nat) (oracle : List UampUpdate)
    (c1 : UampClient) (oracle1 : List UampUpdate)
    (hC : ClientInv c) (hid : agentID < c.numAgents)
    (hguard : (getCurrentUpdate c agentID).time ≠ c.timeLimit)
    (hok : advanceAgent c agentID oracle = .ok (c1, oracle1)) :
    c1.fd = c.fd ∧ c1.numAgents = c.numAgents ∧ c1.timeLimit = c.timeLimit ∧
    c1.numStates = c.numStates ∧ c1.largestLastTime = c.largestLastTime ∧
    c1.smallestCurrentTime = c.smallestCurrentTime ∧ c1.changes = c.changes ∧
    c1.agents.length = c.agents.length ∧
    (∀ x ∈ c1.agents, AgentInv c.timeLimit x) ∧
    (getCurrentUpdate c agentID).time < (getCurrentUpdate c1 agentID).time ∧
    (∀ j, j ≠ agentID → getCurrentUpdate c1 j = getCurrentUpdate c j) ∧
    uGet ((c1.agents.getD agentID default).updates)
        ((c.agents.getD agentID default).currentIndex) = getCurrentUpdate c agentID := by
  obtain ⟨hn1, hlen, hTL, hag, -⟩ := hC
  have hidlen : agentID < c.agents.length := by omega
  have hamem : c.agents.getD agentID default ∈ c.agents := getD_mem _ _ _ hidlen
  have hA := hag _ hamem
  obtain ⟨hu, hr, hf, hal, hstrict, hstale⟩ :=
    advanceQueue_spec c.timeLimit (c.agents.getD agentID default) hA hguard
  simp only [advanceAgent] at hok
  by_cases h1 : (advanceQueue (c.agents.getD agentID default)).aliveInQueue = 1
  · rw [if_pos h1] at hok
    obtain ⟨hR0, hidx0, hff0, hsingle0, htnz0⟩ := hstale h1
    have halive2 : (c.agents.getD agentID default).aliveInQueue = 2 := by
      obtain ⟨-, -, -, hal0, -⟩ := advanceQueue_proj (c.agents.getD agentID default)
      rw [if_pos htnz0] at hal0
      have h2 := hA.2.1
      omega
    have hinvFill : ∀ x ∈ c.agents.set agentID
        (advanceQueue (c.agents.getD agentID default)), RInv c.timeLimit x := by
      intro x hx
      rcases List.mem_or_eq_of_mem_set hx with hx | rfl
      · exact (hag x hx).1
      · exact hR0
    obtain ⟨hrel, hfd, hnum, hlim, hns, hlg, hsm2, hch⟩ :=
      fillUpdateQueuesM_ok _ oracle c1 oracle1 hinvFill hok
    have hlen1 : c1.agents.length = c.agents.length := by
      have hl := List.Forall₂.length_eq hrel
      simpa [List.length_set] using hl.symm
    have hrelAt : ∀ j, j < c.agents.length →
        AgentFillRel c.timeLimit ((c.agents.set agentID
          (advanceQueue (c.agents.getD agentID default))).getD j default)
          (c1.agents.getD j default) := by
      intro j hj
      exact forall₂_getD default default _ _ hrel j (by simp [List.length_set]; omega)
    have hrelA := hrelAt agentID hidlen
    rw [getD_set_self _ _ _ _ hidlen] at hrelA
    obtain ⟨hAinv2, htlt2, hsnap2⟩ :=
      AgentInv_refill c.timeLimit (c.agents.getD agentID default) _ _ hA hR0 h1
        hidx0 (hf.trans hff0) hsingle0 htnz0 hr halive2 hguard hrelA
    refine ⟨hfd, hnum, hlim, hns, hlg, hsm2, hch, hlen1, ?_, htlt2, ?_, hsnap2⟩
    · intro x hx
      obtain ⟨j, hj, hEq⟩ := List.mem_iff_getElem.mp hx
      have hEq2 : x = c1.agents.getD j default := by
        rw [← hEq, List.getD_eq_getElem _ _ hj]
      rw [hEq2]
      by_cases hja : j = agentID
      · rw [hja]
        exact hAinv2
      · have hrelJ := hrelAt j (by omega)
        rw [getD_set_ne _ _ _ _ _ hja] at hrelJ
        exact (AgentInv_fill c.timeLimit _ _ (hag _ (getD_mem _ _ _ (by omega))) hrelJ).1
    · intro j hja
      by_cases hj : j < c.agents.length
      · have hrelJ := hrelAt j hj
        rw [getD_set_ne _ _ _ _ _ hja] at hrelJ
        unfold getCurrentUpdate
        exact (AgentInv_fill c.timeLimit _ _ (hag _ (getD_mem _ _ _ hj)) hrelJ).2
      · unfold getCurrentUpdate
        rw [List.getD_eq_default _ _ (by omega), List.getD_eq_default _ _ (by omega)]
  · rw [if_neg h1] at hok
    have hpair := Except.ok.inj hok
    have hc1 : ({ c with agents := c.agents.set agentID (advanceQueue (c.agents.getD agentID default)) } : UampClient) = c1 :=
      congrArg Prod.fst hpair
    obtain ⟨hAinv1, htlt1⟩ := hstrict h1
    refine ⟨by rw [← hc1], by rw [← hc1], by rw [← hc1], by rw [← hc1], by rw [← hc1],
      by rw [← hc1], by rw [← hc1], by rw [← hc1]; simp [List.length_set], ?_, ?_, ?_, ?_⟩
    · intro x hx
      rw [← hc1] at hx
      rcases List.mem_or_eq_of_mem_set hx with hx | rfl
      · exact hag x hx
      · exact hAinv1
    · unfold getCurrentUpdate
      rw [← hc1]
      show (agentCurrentUpdate (c.agents.getD agentID default)).time <
        (agentCurrentUpdate ((c.agents.set agentID
          (advanceQueue (c.agents.getD agentID default))).getD agentID default)).time
      rw [getD_set_self _ _ _ _ hidlen]
      exact htlt1
    · intro j hja
      unfold getCurrentUpdate
      rw [← hc1]
      show agentCurrentUpdate ((c.agents.set agentID
          (advanceQueue (c.agents.getD agentID default))).getD j default) =
        agentCurrentUpdate (c.agents.getD j default)
      rw [getD_set_ne _ _ _ _ _ hja]
    · rw [← hc1]
      show uGet (((c.agents.set agentID
          (advanceQueue (c.agents.getD agentID default))).getD agentID default).updates)
          ((c.agents.getD agentID default).currentIndex) = getCurrentUpdate c agentID
      rw [getD_set_self _ _ _ _ hidlen, hu]
      rfl


/-- `minCurrentFold` reads only the agents array and the agent count. -/
lemma minCurrentFold_congr (c c2 : UampClient) (hag : c2.agents = c.agents)
    (hn : c2.numAgents = c.numAgents) : minCurrentFold c2 = minCurrentFold c := by
  simp only [minCurrentFold, getCurrentUpdate, hag, hn]

/-- One successful `uampAdvance` preserves the client invariant and never
decreases either cached cursor time. -/
lemma uampAdvance_ok (c : UampClient) (agentID : Nat) (oracle : List UampUpdate)
    (c' : UampClient) (oracle' : List UampUpdate)
    (hC : ClientInv c) (hid : agentID < c.numAgents)
    (hok : uampAdvance c agentID oracle = .ok (c', oracle')) :
    ClientInv c' ∧ c'.numAgents = c.numAgents ∧ c'.timeLimit = c.timeLimit ∧
    c.largestLastTime ≤ c'.largestLastTime ∧
    c.smallestCurrentTime ≤ c'.smallestCurrentTime := by
  obtain ⟨hn1, hlen, hTL, hag, hsm⟩ := hC
  simp only [uampAdvance] at hok
  by_cases hg : (uGet (c.agents.getD agentID default).updates
      (c.agents.getD agentID default).currentIndex).time = c.timeLimit
  · rw [if_pos hg] at hok
    exact absurd hok (by simp)
  · rw [if_neg hg] at hok
    split at hok
    · exact absurd hok (by simp)
    · rename_i c1 oracle1 heqA
      obtain ⟨hfd, hnum, hlim, hns, hlg, hsm1, hch, hlen1, hags, htlt, hothers, hsnap⟩ :=
        advanceAgent_ok c agentID oracle c1 oracle1 ⟨hn1, hlen, hTL, hag, hsm⟩ hid hg heqA
      rw [hsnap] at hok
      have hspecC := minCurrentFold_spec c hn1
        (ClientInv_time_le c ⟨hn1, hlen, hTL, hag, hsm⟩)
      have hlow : ∀ j, j < c.numAgents →
          c.smallestCurrentTime ≤ (getCurrentUpdate c1 j).time := by
        intro j hj
        by_cases hja : j = agentID
        · have h2 := hspecC.1 agentID hid
          rw [hja, hsm]
          omega
        · rw [hothers j hja, hsm]
          exact hspecC.1 j hj
      have htimes1 : ∀ j, j < c1.numAgents → (getCurrentUpdate c1 j).time ≤ UINT32_MAX := by
        intro j hj
        have hmem : c1.agents.getD j default ∈ c1.agents :=
          getD_mem _ _ _ (by omega)
        exact le_trans (AgentInv_time_le _ _ (hags _ hmem)) hTL
      have hminspec1 := minCurrentFold_spec c1 (by omega) htimes1
      have hmin1_low : c.smallestCurrentTime ≤ minCurrentFold c1 := by
        obtain ⟨j, hj, heq⟩ := hminspec1.2
        rw [heq]
        exact hlow j (by omega)
      have hmin1_eq : (getCurrentUpdate c agentID).time ≠ c.smallestCurrentTime →
          minCurrentFold c1 = c.smallestCurrentTime := by
        intro hne
        obtain ⟨i, hi, hieq⟩ := hspecC.2
        have hia : i ≠ agentID := by
          intro hcon
          rw [hcon] at hieq
          rw [hsm] at hne
          exact hne hieq.symm
        have hup : minCurrentFold c1 ≤ (getCurrentUpdate c1 i).time :=
          hminspec1.1 i (by omega)
        rw [hothers i hia] at hup
        rw [hsm]
        omega
      by_cases hL : c1.largestLastTime < (getCurrentUpdate c agentID).time
      · rw [if_pos hL] at hok
        rw [show ({ c1 with largestLastTime := (getCurrentUpdate c agentID).time } :
          UampClient).smallestCurrentTime = c1.smallestCurrentTime from rfl] at hok
        by_cases hS : (getCurrentUpdate c agentID).time = c1.smallestCurrentTime
        · rw [if_pos hS] at hok
          obtain ⟨hc', -⟩ := Prod.mk.inj (Except.ok.inj hok)
          have hagents2 : c'.agents = c1.agents := by rw [← hc']
          have hnum2 : c'.numAgents = c1.numAgents := by rw [← hc']
          have hlim2 : c'.timeLimit = c1.timeLimit := by rw [← hc']
          have hsmall2 : c'.smallestCurrentTime = minCurrentFold c1 := by
            rw [← hc']
            rfl
          have hlarge2 : c'.largestLastTime = (getCurrentUpdate c agentID).time := by
            rw [← hc']
          refine ⟨⟨by omega, by rw [hagents2, hnum2]; omega,
            by rw [hlim2, hlim]; exact hTL,
            by rw [hagents2, hlim2, hlim]; exact hags,
            by rw [hsmall2, minCurrentFold_congr c1 c' hagents2 hnum2]⟩,
            by omega, by rw [hlim2, hlim], by omega, by rw [hsmall2]; exact hmin1_low⟩
        · rw [if_neg hS] at hok
          obtain ⟨hc', -⟩ := Prod.mk.inj (Except.ok.inj hok)
          have hagents2 : c'.agents = c1.agents := by rw [← hc']
          have hnum2 : c'.numAgents = c1.numAgents := by rw [← hc']
          have hlim2 : c'.timeLimit = c1.timeLimit := by rw [← hc']
          have hsmall2 : c'.smallestCurrentTime = c1.smallestCurrentTime := by rw [← hc']
          have hlarge2 : c'.largestLastTime = (getCurrentUpdate c agentID).time := by
            rw [← hc']
          have hne : (getCurrentUpdate c agentID).time ≠ c.smallestCurrentTime := by
            rw [← hsm1]
            exact hS
          refine ⟨⟨by omega, by rw [hagents2, hnum2]; omega,
            by rw [hlim2, hlim]; exact hTL,
            by rw [hagents2, hlim2, hlim]; exact hags,
            by rw [hsmall2, hsm1, minCurrentFold_congr c1 c' hagents2 hnum2]
               exact (hmin1_eq hne).symm⟩,
            by omega, by rw [hlim2, hlim], by omega, by omega⟩
      · rw [if_neg hL] at hok
        by_cases hS : (getCurrentUpdate c agentID).time = c1.smallestCurrentTime
        · rw [if_pos hS] at hok
          obtain ⟨hc', -⟩ := Prod.mk.inj (Except.ok.inj hok)
          have hagents2 : c'.agents = c1.agents := by rw [← hc']
          have hnum2 : c'.numAgents = c1.numAgents := by rw [← hc']
          have hlim2 : c'.timeLimit = c1.timeLimit := by rw [← hc']
          have hsmall2 : c'.smallestCurrentTime = minCurrentFold c1 := by
            rw [← hc']
          have hlarge2 : c'.largestLastTime = c1.largestLastTime := by rw [← hc']
          refine ⟨⟨by omega, by rw [hagents2, hnum2]; omega,
            by rw [hlim2, hlim]; exact hTL,
            by rw [hagents2, hlim2, hlim]; exact hags,
            by rw [hsmall2, minCurrentFold_congr c1 c' hagents2 hnum2]⟩,
            by omega, by rw [hlim2, hlim], by omega, by rw [hsmall2]; exact hmin1_low⟩
        · rw [if_neg hS] at hok
          obtain ⟨hc', -⟩ := Prod.mk.inj (Except.ok.inj hok)
          have hagents2 : c'.agents = c1.agents := by rw [← hc']
          have hnum2 : c'.numAgents = c1.numAgents := by rw [← hc']
          have hlim2 : c'.timeLimit = c1.timeLimit := by rw [← hc']
          have hsmall2 : c'.smallestCurrentTime = c1.smallestCurrentTime := by rw [← hc']
          have hlarge2 : c'.largestLastTime = c1.largestLastTime := by rw [← hc']
          have hne : (getCurrentUpdate c agentID).time ≠ c.smallestCurrentTime := by
            rw [← hsm1]
            exact hS
          refine ⟨⟨by omega, by rw [hagents2, hnum2]; omega,
            by rw [hlim2, hlim]; exact hTL,
            by rw [hagents2, hlim2, hlim]; exact hags,
            by rw [hsmall2, hsm1, minCurrentFold_congr c1 c' hagents2 hnum2]
               exact (hmin1_eq hne).symm⟩,
            by omega, by rw [hlim2, hlim], by omega, by omega⟩


/-- The loop of `uampAdvanceOldest`: each accepted id advances through
`uampAdvance`, so the client invariant and the monotonicity of both cached
cursor times carry through the whole pass. -/
lemma advanceOldestLoop_ok (oldest : Nat) : ∀ (ids : List Nat) (c : UampClient)
    (oracle : List UampUpdate) (c' : UampClient) (oracle' : List UampUpdate),
    ClientInv c → (∀ i ∈ ids, i < c.numAgents) →
    advanceOldestLoop oldest ids c oracle = .ok (c', oracle') →
    ClientInv c' ∧ c'.numAgents = c.numAgents ∧ c'.timeLimit = c.timeLimit ∧
    c.largestLastTime ≤ c'.largestLastTime ∧
    c.smallestCurrentTime ≤ c'.smallestCurrentTime := by
  intro ids
  induction ids with
  | nil =>
      intro c oracle c' oracle' hC _ hok
      simp only [advanceOldestLoop] at hok
      obtain ⟨hc', -⟩ := Prod.mk.inj (Except.ok.inj hok)
      subst hc'
      exact ⟨hC, rfl, rfl, le_refl _, le_refl _⟩
  | cons i rest ih =>
      intro c oracle c' oracle' hC hids hok
      simp only [advanceOldestLoop] at hok
      by_cases ht : (getCurrentUpdate c i).time = oldest
      · rw [if_pos ht] at hok
        split at hok
        · exact absurd hok (by simp)
        · rename_i c1 oracle1 heq
          obtain ⟨hC1, hnum1, hlim1, hlg1, hsm1⟩ :=
            uampAdvance_ok c i oracle c1 oracle1 hC (hids i (by simp)) heq
          obtain ⟨hC2, hnum2, hlim2, hlg2, hsm2⟩ :=
            ih c1 oracle1 c' oracle' hC1
              (fun j hj => by have := hids j (by simp [hj]); omega) hok
          exact ⟨hC2, by omega, by rw [hlim2, hlim1], by omega, by omega⟩
      · rw [if_neg ht] at hok
        exact ih c oracle c' oracle' hC (fun j hj => hids j (by simp [hj])) hok

/-- One successful `uampAdvanceOldest` preserves the client invariant and
never decreases either cached cursor time. -/
lemma uampAdvanceOldest_ok (c : UampClient) (oracle : List UampUpdate)
    (c' : UampClient) (oracle' : List UampUpdate) (hC : ClientInv c)
    (hok : uampAdvanceOldest c oracle = .ok (c', oracle')) :
    ClientInv c' ∧ c'.numAgents = c.numAgents ∧ c'.timeLimit = c.timeLimit ∧
    c.largestLastTime ≤ c'.largestLastTime ∧
    c.smallestCurrentTime ≤ c'.smallestCurrentTime := by
  unfold uampAdvanceOldest at hok
  by_cases hg : c.smallestCurrentTime = c.timeLimit
  · rw [if_pos hg] at hok
    exact absurd hok (by simp)
  · rw [if_neg hg] at hok
    exact advanceOldestLoop_ok c.smallestCurrentTime (List.range c.numAgents) c oracle
      c' oracle' hC (fun i hi => List.mem_range.mp hi) hok

/-- One successful advancing operation of a session: a `uampAdvance` on a
valid agent id (the C asserts `0 <= agentID < numAgents`) or a
`uampAdvanceOldest`. -/
inductive SessionStep : UampClient → UampClient → Prop where
  | advance (c c' : UampClient) (agentID : Nat) (oracle oracleRest : List UampUpdate)
      (hid : agentID < c.numAgents)
      (hok : uampAdvance c agentID oracle = .ok (c', oracleRest)) : SessionStep c c'
  | advanceOldest (c c' : UampClient) (oracle oracleRest : List UampUpdate)
      (hok : uampAdvanceOldest c oracle = .ok (c', oracleRest)) : SessionStep c c'

/-- Zero or more successful advancing operations. -/
inductive SessionReach (c : UampClient) : UampClient → Prop where
  | refl : SessionReach c c
  | step (c1 c2 : UampClient) : SessionReach c c1 → SessionStep c1 c2 →
      SessionReach c c2

lemma SessionStep_ok (c c' : UampClient) (hC : ClientInv c) (h : SessionStep c c') :
    ClientInv c' ∧ c'.numAgents = c.numAgents ∧ c'.timeLimit = c.timeLimit ∧
    c.largestLastTime ≤ c'.largestLastTime ∧
    c.smallestCurrentTime ≤ c'.smallestCurrentTime := by
  cases h with
  | advance agentID oracle oracleRest hid hok =>
      exact uampAdvance_ok c agentID oracle c' oracleRest hC hid hok
  | advanceOldest oracle oracleRest hok =>
      exact uampAdvanceOldest_ok c oracle c' oracleRest hC hok

lemma SessionReach_inv (c c' : UampClient) (hC : ClientInv c)
    (h : SessionReach c c') : ClientInv c' := by
  induction h with
  | refl => exact hC
  | step c1 c2 hr hs ih => exact (SessionStep_ok c1 c2 ih hs).1


/-! ## Claims C2 and C5: cursor monotonicity and the meaning of
`aliveInQueue` over a connected session -/

/-- **C2.** Across every sequence of successful `uampAdvance` and
`uampAdvanceOldest` operations on a connected session: both cached cursor
times start at 0 with every agent's first current time 0; at every
reachable state `smallestCurrentTime` is the minimum of the agents' current
update times (a lower bound that is attained); and each further successful
operation leaves `largestLastTime` and `smallestCurrentTime` non-decreasing. -/
theorem cursor_monotonicity (c0 c c' : UampClient)
    (h0 : PostConnect c0) (hr : SessionReach c0 c) (hs : SessionStep c c') :
    c0.largestLastTime = 0 ∧ c0.smallestCurrentTime = 0 ∧
    (∀ i, i < c0.numAgents → (getCurrentUpdate c0 i).time = 0) ∧
    (∀ i, i < c.numAgents → c.smallestCurrentTime ≤ (getCurrentUpdate c i).time) ∧
    (∃ i, i < c.numAgents ∧ c.smallestCurrentTime = (getCurrentUpdate c i).time) ∧
    c.largestLastTime ≤ c'.largestLastTime ∧
    c.smallestCurrentTime ≤ c'.smallestCurrentTime := by
  obtain ⟨hC0, hlg0, hsm0, htimes0⟩ := postConnect_inv c0 h0
  have hC := SessionReach_inv c0 c hC0 hr
  obtain ⟨-, -, hlg, hsm⟩ := (SessionStep_ok c c' hC hs).2
  have hspec := minCurrentFold_spec c hC.1 (ClientInv_time_le c hC)
  have hsmeq := hC.2.2.2.2
  refine ⟨hlg0, hsm0, htimes0, ?_, ?_, hlg, hsm⟩
  · intro i hi
    rw [hsmeq]
    exact hspec.1 i hi
  · obtain ⟨i, hi, heq⟩ := hspec.2
    exact ⟨i, hi, by rw [hsmeq]; exact heq⟩

/-- The six strictly later-and-later location replies of the concrete
session used by the C2 and C5 witnesses (time limit 500 ms). -/
def exOracleC2 : List UampUpdate :=
  [⟨0, 10, 20, 0, 1⟩, ⟨100, 11, 21, 0, 1⟩, ⟨200, 12, 22, 0, 1⟩,
   ⟨300, 13, 23, 0, 1⟩, ⟨400, 14, 24, 0, 1⟩, ⟨500, 15, 25, 0, 1⟩]

/-- The connected client those replies produce. -/
def exC2c0 : UampClient :=
  { fd := 3, serverFeatures3D := false, serverFeaturesAddRemove := false
    numAgents := 1, timeLimit := 500, numStates := 0
    agents := [{ updates := [⟨0, 10, 20, 0, 1⟩, ⟨100, 11, 21, 0, 1⟩, ⟨200, 12, 22, 0, 1⟩,
                             ⟨300, 13, 23, 0, 1⟩, ⟨400, 14, 24, 0, 1⟩, ⟨500, 15, 25, 0, 1⟩]
                 currentIndex := 0, aliveInQueue := 6, recvIndex := 0
                 receivedFinal := true }]
    largestLastTime := 0, smallestCurrentTime := 0, changes := [] }

/-- The agent of that client after one `uampAdvance`. -/
def exAgentC2 : UampAgent :=
  { updates := [⟨0, 10, 20, 0, 1⟩, ⟨100, 11, 21, 0, 1⟩, ⟨200, 12, 22, 0, 1⟩,
                ⟨300, 13, 23, 0, 1⟩, ⟨400, 14, 24, 0, 1⟩, ⟨500, 15, 25, 0, 1⟩]
    currentIndex := 1, aliveInQueue := 6, recvIndex := 0, receivedFinal := true }

/-- The client after one `uampAdvance` of agent 0. -/
def exC2c1 : UampClient :=
  { fd := 3, serverFeatures3D := false, serverFeaturesAddRemove := false
    numAgents := 1, timeLimit := 500, numStates := 0
    agents := [exAgentC2]
    largestLastTime := 0, smallestCurrentTime := 100, changes := [] }

/-- Witness for C2 at the concrete session: a connect followed by one
advance, with both cursors starting at 0 and not decreasing. -/
theorem cursor_monotonicity_witness :
    exC2c0.largestLastTime = 0 ∧ exC2c0.smallestCurrentTime = 0 ∧
    exC2c0.largestLastTime ≤ exC2c1.largestLastTime ∧
    exC2c0.smallestCurrentTime ≤ exC2c1.smallestCurrentTime := by
  obtain ⟨h1, h2, -, -, -, h6, h7⟩ := cursor_monotonicity exC2c0 exC2c0 exC2c1
    ⟨3, false, false, 1, 500, exOracleC2, [], by decide, by decide, rfl⟩
    SessionReach.refl
    (SessionStep.advance exC2c0 exC2c1 0 [] [] (by decide) rfl)
  exact ⟨h1, h2, h6, h7⟩

/-- The count the C5 claim ascribes to `aliveInQueue`, evaluated on a state
whose queued times are strictly increasing: the stored updates that are the
current one or still to be consumed are exactly the slots whose time is at
least the current update's time. -/
def countCurrentOrFuture (a : UampAgent) : Nat :=
  ((List.range 6).filter fun p =>
    (agentCurrentUpdate a).time ≤ (uGet a.updates (p : Int)).time).length

/-- **C5, counterexample.** In the reachable connected state reached by one
`uampAdvance` after connecting, the agent keeps `aliveInQueue = 6` although
only 5 stored updates are the current one or still to be consumed: the
sixth alive update is the already-consumed previous one, which the queue
keeps because the library still hands out references to it
(queues.c, lines 58-60). -/
theorem alive_in_queue_counterexample :
    initializeQueues (connSetup 3 false false 1 500) exOracleC2 = .ok (exC2c0, []) ∧
    uampAdvance exC2c0 0 [] = .ok (exC2c1, []) ∧
    (exC2c1.agents.getD 0 default).aliveInQueue = 6 ∧
    countCurrentOrFuture (exC2c1.agents.getD 0 default) = 5 :=
  ⟨rfl, rfl, by decide, by decide⟩

/-- **C5, amended.** In every reachable state of a connected session, every
agent satisfies the claimed bounds `0 ≤ currentIndex < 6`,
`0 ≤ recvIndex < 6` and `0 ≤ aliveInQueue ≤ 6` (so they are preserved by
every queue operation), and `aliveInQueue` counts the current update, the
updates still to be consumed, and — once the agent has advanced past its
first update — additionally the retained previous update: before the first
advance (current time 0) the queue is full with `recvIndex = currentIndex`,
and afterwards the ring distance from `currentIndex` to `recvIndex` (the
current update plus those still to be consumed) is `aliveInQueue - 1`. -/
theorem alive_in_queue_meaning (c0 c : UampClient) (h0 : PostConnect c0)
    (hr : SessionReach c0 c) :
    ∀ a ∈ c.agents,
      (0 ≤ a.currentIndex ∧ a.currentIndex < 6) ∧
      (0 ≤ a.recvIndex ∧ a.recvIndex < 6) ∧
      (0 ≤ a.aliveInQueue ∧ a.aliveInQueue ≤ 6) ∧
      ((agentCurrentUpdate a).time = 0 →
        a.recvIndex = a.currentIndex ∧ a.aliveInQueue = 6) ∧
      ((agentCurrentUpdate a).time ≠ 0 →
        (a.recvIndex - a.currentIndex) % 6 = a.aliveInQueue - 1) := by
  have hC := SessionReach_inv c0 c (postConnect_inv c0 h0).1 hr
  intro a ha
  obtain ⟨hR, h2, hz, hnz⟩ := hC.2.2.2.1 a ha
  have hrs := recv_eq_segSlot a hR.recv0 hR.recv6 hR.alive0
  have ha6 := hR.alive6
  have hr0 := hR.recv0
  have hr6 := hR.recv6
  refine ⟨⟨hR.cur0, hR.cur6⟩, ⟨hr0, hr6⟩, ⟨hR.alive0, ha6⟩, ?_, ?_⟩
  · intro ht
    obtain ⟨hidx, hful⟩ := hz ht
    refine ⟨?_, hful⟩
    rw [hidx]
    unfold segSlot segStart at hrs
    unfold segStart
    omega
  · intro ht
    rw [hnz ht]
    unfold segSlot segStart at hrs
    unfold segStart
    omega

/-- Witness for the amended C5 at the concrete post-advance agent: position
bounds hold and the ring distance from cursor to receive slot is
`aliveInQueue - 1 = 5`. -/
theorem alive_in_queue_meaning_witness :
    (0 ≤ exAgentC2.currentIndex ∧ exAgentC2.currentIndex < 6) ∧
    (0 ≤ exAgentC2.recvIndex ∧ exAgentC2.recvIndex < 6) ∧
    (0 ≤ exAgentC2.aliveInQueue ∧ exAgentC2.aliveInQueue ≤ 6) ∧
    ((agentCurrentUpdate exAgentC2).time = 0 →
      exAgentC2.recvIndex = exAgentC2.currentIndex ∧ exAgentC2.aliveInQueue = 6) ∧
    ((agentCurrentUpdate exAgentC2).time ≠ 0 →
      (exAgentC2.recvIndex - exAgentC2.currentIndex) % 6 =
        exAgentC2.aliveInQueue - 1) :=
  alive_in_queue_meaning exC2c0 exC2c1
    ⟨3, false, false, 1, 500, exOracleC2, [], by decide, by decide, rfl⟩
    (SessionReach.step exC2c0 exC2c1 SessionReach.refl
      (SessionStep.advance exC2c0 exC2c1 0 [] [] (by decide) rfl))
    exAgentC2 (by decide)


end DBS3
